import Mathlib

/-!
Verification of the tcc compiler (AST → TAC lowering, register allocation,
TAC → x86 expansion, and the recursive-descent parser).

The Rust sources are embedded shallowly:
 - pure functions become Lean functions;
 - `panic!` / `unreachable!` / `assert!` failures and process exits become
   `Option.none`;
 - the two process-wide monotonic counters (temporary identifiers and label
   numbers) become an explicit state value `St` threaded through the lowering;
 - Rust machine integers (`i32`, `i64`, `usize`) become `Int` / `Nat`; no claim
   under consideration depends on wrap-around behaviour;
 - the label strings minted with `format!("label_and_false_{}", n)` are
   modelled as the structured pair `Lbl.mk "label_and_false_" n`, keeping the
   injectivity of the format explicit.

Definitions carry the names of the Rust items they embed wherever Lean's
syntax allows.
-/

namespace Tac

/-- Rust `i32` / `i64` values, modelled as unbounded integers. -/
abbrev I64 := Int

/-- From `src/tac` (the module file declaring it is not under `src/`; the
variants are those listed in spec §3 and used by `src/src/tac/expr.rs`). -/
inductive VarSize where
  | Byte
  | Word
  | Dword
  | Quad
deriving DecidableEq, Repr

/-- Modelled from the spec: the `Default` impl for `VarSize` is not under
`src/`; the spec calls it "the default size" (the size of `int`, spec §3 uses
i32 literals), i.e. `Dword`. No claim depends on which size is the default. -/
def VarSize.default : VarSize := .Dword

/-- TAC identifier: "pair (unique numeric id, size)" (spec §3). The Rust
tuple-struct field `.0` is `num`, `.1` is `size`. -/
structure Identifier where
  num : Nat
  size : VarSize
deriving DecidableEq, Repr

/-- A minted label. Rust builds the string `format!("{family}{num}")`, e.g.
`label_and_false_3`; the pair keeps the injective structure explicit. -/
structure Lbl where
  family : String
  num : Nat
deriving DecidableEq, Repr

/-- From `src/src/parser/expr_parser.rs`. -/
inductive UnOp where
  | Negation
  | BitwiseComplement
  | Not
deriving DecidableEq, Repr

/-- From `src/src/parser/expr_parser.rs`. -/
inductive BinOp where
  | Multiply
  | Divide
  | Modulus
  | Plus
  | Minus
  | GreaterThan
  | GreaterThanEq
  | LessThan
  | LessThanEq
  | Equals
  | NotEquals
  | LogicalAnd
  | LogicalOr
deriving DecidableEq, Repr

/-- From `src/src/parser/expr_parser.rs` (the version used by
`src/src/tac/expr.rs`). `FunctionCall`'s list holds the argument
expressions. -/
inductive Expr where
  | Int (v : I64)
  | Var (name : String)
  | Assign (name : String) (e : Expr)
  | UnOp (op : UnOp) (e : Expr)
  | BinOp (op : BinOp) (e1 e2 : Expr)
  | Ternary (c e1 e2 : Expr)
  | FunctionCall (name : String) (args : List Expr)
  | PostfixDec (name : String)
  | PostfixInc (name : String)
  | PrefixDec (name : String)
  | PrefixInc (name : String)

/-- TAC value: `{Lit(i32-or-i64, size), Var(identifier)}` (spec §3, and the
uses in `src/src/tac/expr.rs`). -/
inductive TacVal where
  | Lit (v : I64) (size : VarSize)
  | Var (id : Identifier)
deriving DecidableEq, Repr

/-- TAC instruction. The declaring file `src/tac/tac_instr.rs` is not under
`src/`; the variants are the ones listed in spec §3, all of which are
constructed in `src/src/tac/expr.rs`, `src/src/tac/array_init_expr.rs` and
consumed in `src/src/codegen.rs`. -/
inductive TacInstr where
  | Exit (v : TacVal)
  | BinOp (dst : Identifier) (v1 v2 : TacVal) (op : BinOp)
  | UnOp (dst : Identifier) (v : TacVal) (op : UnOp)
  | Copy (dst : Identifier) (src : TacVal)
  | Label (l : Lbl)
  | Jmp (l : Lbl)
  | JmpZero (l : Lbl) (v : TacVal)
  | JmpNotZero (l : Lbl) (v : TacVal)
  | Call (f : String) (args : List TacVal) (dst : Option Identifier)
  | DerefStore (ptr : Identifier) (v : TacVal)
deriving DecidableEq, Repr

/-- The two process-wide counters (spec §5): the temporary-identifier counter
behind `get_new_temp_name` and the label counter behind
`get_new_label_number`, threaded explicitly. -/
structure St where
  temp : Nat
  label : Nat
deriving DecidableEq, Repr

/-- Rust `get_new_temp_name(size)`: mint identifier `(counter, size)` and bump the
counter (declared in the `src/tac` module file, called throughout
`src/src/tac/expr.rs`). -/
def getNewTempName (size : VarSize) (st : St) : Identifier × St :=
  (⟨st.temp, size⟩, ⟨st.temp + 1, st.label⟩)

/-- Rust `get_new_label_number()`: return the label counter and bump it. -/
def getNewLabelNumber (st : St) : Nat × St :=
  (st.label, ⟨st.temp, st.label + 1⟩)

/-- Modelled from the spec: `CodeEnv` is declared in the `src/tac` module file,
which is not under `src/`. Spec §9: "model the environment as a stack of
mappings from source names to TAC identifiers"; the head of the list is the
innermost scope. -/
abbrev CodeEnv := List (List (String × Identifier))

/-- Modelled from the spec: `resolve_variable_to_temp_name` is declared in the
`src/tac` module file. Spec §9: "resolve lookups innermost-first; fail on
miss" (the Rust function panics on a miss, modelled as `none`). -/
def resolveVar (name : String) (env : CodeEnv) : Option Identifier :=
  match env with
  | [] => none
  | scope :: outer =>
    match scope.find? (fun p => p.1 = name) with
    | some p => some p.2
    | none => resolveVar name outer

/-- Rust `get_bigger_size`, from `src/src/tac/expr.rs` lines 299-315, clause for
clause. -/
def get_bigger_size (s1 s2 : Option VarSize) : Option VarSize :=
  if s1 = some .Quad ∨ s2 = some .Quad then some .Quad
  else if s1 = some .Dword ∨ s2 = some .Dword then some .Dword
  else if s1 = some .Word ∨ s2 = some .Word then some .Word
  else if s1 = some .Byte ∨ s2 = some .Byte then some .Byte
  else none

/-- Rust `get_expr_size`, from `src/src/tac/expr.rs` lines 317-337. The outer
`Option` is panic propagation from `resolve_variable_to_temp_name`; the inner
`Option VarSize` is the Rust return value. -/
def get_expr_size (e : Expr) (env : CodeEnv) : Option (Option VarSize) :=
  match e with
  | .Int _ => some none
  | .Var name => (resolveVar name env).map (fun id => some id.size)
  | .Assign name _ => (resolveVar name env).map (fun id => some id.size)
  | .UnOp _ inner => get_expr_size inner env
  | .BinOp _ e1 e2 =>
    match get_expr_size e1 env, get_expr_size e2 env with
    | some s1, some s2 => some (get_bigger_size s1 s2)
    | _, _ => none
  | .Ternary _ e1 e2 =>
    match get_expr_size e1 env, get_expr_size e2 env with
    | some s1, some s2 => some (get_bigger_size s1 s2)
    | _, _ => none
  | .FunctionCall _ _ => some (some VarSize.default)
  | .PostfixDec name => (resolveVar name env).map (fun id => some id.size)
  | .PostfixInc name => (resolveVar name env).map (fun id => some id.size)
  | .PrefixDec name => (resolveVar name env).map (fun id => some id.size)
  | .PrefixInc name => (resolveVar name env).map (fun id => some id.size)

/-- The `final_temp_name` computation repeated verbatim at the top of
`generate_binop_tac`, `generate_short_circuiting_tac` and
`generate_ternary_tac` (`src/src/tac/expr.rs` lines 127-137, 154-164,
228-238): use the supplied target, else mint a fresh temporary sized
`get_bigger_size(get_expr_size(e1), get_expr_size(e2))
 .unwrap_or(suggested_size.unwrap_or_default())`. -/
def chooseFinalTemp (target : Option Identifier) (e1 e2 : Expr) (env : CodeEnv)
    (sug : Option VarSize) (st : St) : Option (Identifier × St) :=
  match target with
  | some ident => some (ident, st)
  | none =>
    match get_expr_size e1 env, get_expr_size e2 env with
    | some s1, some s2 =>
      some (getNewTempName ((get_bigger_size s1 s2).getD (sug.getD VarSize.default)) st)
    | _, _ => none

/-- Modelled from the spec: `src/tac/prefix_postfix_inc_dec.rs` is not under
`src/`. Spec §4.1: "PrefixInc(n): increment first, value observed is the
post-modification value", and the §4.1 contract: with a supplied target the
result value is `Var(t)` and the last write of the sequence lands in `t`. -/
def gen_prefix_inc_tac (name : String) (env : CodeEnv) (target : Option Identifier)
    (st : St) : Option ((List TacInstr × TacVal) × St) :=
  match resolveVar name env with
  | none => none
  | some id =>
    match target with
    | some t =>
      some (([.BinOp id (.Var id) (.Lit 1 id.size) .Plus, .Copy t (.Var id)], .Var t), st)
    | none =>
      some (([.BinOp id (.Var id) (.Lit 1 id.size) .Plus], .Var id), st)

/-- Modelled from the spec: as `gen_prefix_inc_tac`, decrementing ("PostfixDec
symmetric", spec §4.1, applied to the prefix form). -/
def gen_prefix_dec_tac (name : String) (env : CodeEnv) (target : Option Identifier)
    (st : St) : Option ((List TacInstr × TacVal) × St) :=
  match resolveVar name env with
  | none => none
  | some id =>
    match target with
    | some t =>
      some (([.BinOp id (.Var id) (.Lit 1 id.size) .Minus, .Copy t (.Var id)], .Var t), st)
    | none =>
      some (([.BinOp id (.Var id) (.Lit 1 id.size) .Minus], .Var id), st)

/-- Modelled from the spec: `src/tac/prefix_postfix_inc_dec.rs` is not under
`src/`. Spec §4.1: "PostfixInc(n): value observed is the *pre*-modification
value; then variable is incremented by 1", together with the §4.1 contract
that with a supplied target the last write lands in `t`: the variable is
incremented and the pre-modification value `id - 1` is then written to `t`.
Without a target the observed value is held in a fresh temporary. -/
def gen_postfix_inc_tac (name : String) (env : CodeEnv) (target : Option Identifier)
    (st : St) : Option ((List TacInstr × TacVal) × St) :=
  match resolveVar name env with
  | none => none
  | some id =>
    match target with
    | some t =>
      some (([.BinOp id (.Var id) (.Lit 1 id.size) .Plus,
              .BinOp t (.Var id) (.Lit 1 id.size) .Minus], .Var t), st)
    | none =>
      let (t, st1) := getNewTempName id.size st
      some (([.Copy t (.Var id), .BinOp id (.Var id) (.Lit 1 id.size) .Plus], .Var t), st1)

/-- Modelled from the spec: as `gen_postfix_inc_tac`, decrementing
("PostfixDec symmetric", spec §4.1). -/
def gen_postfix_dec_tac (name : String) (env : CodeEnv) (target : Option Identifier)
    (st : St) : Option ((List TacInstr × TacVal) × St) :=
  match resolveVar name env with
  | none => none
  | some id =>
    match target with
    | some t =>
      some (([.BinOp id (.Var id) (.Lit 1 id.size) .Minus,
              .BinOp t (.Var id) (.Lit 1 id.size) .Plus], .Var t), st)
    | none =>
      let (t, st1) := getNewTempName id.size st
      some (([.Copy t (.Var id), .BinOp id (.Var id) (.Lit 1 id.size) .Minus], .Var t), st1)

mutual

/-- Rust `generate_expr_tac`, from `src/src/tac/expr.rs` lines 14-106. Returns the
instruction list and the value holding the expression, or `none` where the
Rust code panics (an unresolved variable). -/
def generate_expr_tac (e : Expr) (env : CodeEnv) (target : Option Identifier)
    (sug : Option VarSize) (st : St) : Option ((List TacInstr × TacVal) × St) :=
  match e with
  | .Var name =>
    match resolveVar name env with
    | none => none
    | some id =>
      match target with
      | some t => some (([.Copy t (.Var id)], .Var t), st)
      | none => some (([], .Var id), st)
  | .Assign name e1 =>
    match resolveVar name env with
    | none => none
    | some id =>
      match generate_expr_tac e1 env (some id) (some id.size) st with
      | none => none
      | some ((res, v), st1) =>
        match target with
        | some t => some ((res ++ [.Copy t v], .Var t), st1)
        | none => some ((res, .Var id), st1)
  | .Int v =>
    match target with
    | some t => some (([.Copy t (.Lit v t.size)], .Var t), st)
    | none => some (([], .Lit v (sug.getD VarSize.default)), st)
  | .UnOp op inner =>
    match target with
    | some t =>
      match generate_expr_tac inner env none sug st with
      | none => none
      | some ((res, v), st1) => some ((res ++ [.UnOp t v op], .Var t), st1)
    | none =>
      match get_expr_size inner env with
      | none => none
      | some szo =>
        let (t, st1) := getNewTempName (szo.getD (sug.getD VarSize.default)) st
        match generate_expr_tac inner env none sug st1 with
        | none => none
        | some ((res, v), st2) => some ((res ++ [.UnOp t v op], .Var t), st2)
  | .BinOp op e1 e2 => generate_binop_tac op e1 e2 env target sug st
  | .Ternary c e1 e2 => generate_ternary_tac c e1 e2 env target sug st
  | .PostfixInc name => gen_postfix_inc_tac name env target st
  | .PostfixDec name => gen_postfix_dec_tac name env target st
  | .PrefixInc name => gen_prefix_inc_tac name env target st
  | .PrefixDec name => gen_prefix_dec_tac name env target st
  | .FunctionCall f args => gen_function_call_tac f args env target st
termination_by (sizeOf e, 2)

/-- Rust `generate_binop_tac`, from `src/src/tac/expr.rs` lines 108-144. -/
def generate_binop_tac (op : BinOp) (e1 e2 : Expr) (env : CodeEnv)
    (target : Option Identifier) (sug : Option VarSize) (st : St) :
    Option ((List TacInstr × TacVal) × St) :=
  if op = .LogicalAnd ∨ op = .LogicalOr then
    generate_short_circuiting_tac op e1 e2 env target sug st
  else
    match chooseFinalTemp target e1 e2 env sug st with
    | none => none
    | some (t, st1) =>
      match generate_expr_tac e1 env none sug st1 with
      | none => none
      | some ((r1, v1), st2) =>
        match generate_expr_tac e2 env none sug st2 with
        | none => none
        | some ((r2, v2), st3) =>
          some ((r1 ++ r2 ++ [.BinOp t v1 v2 op], .Var t), st3)
termination_by (1 + sizeOf op + sizeOf e1 + sizeOf e2, 1)

/-- Rust `generate_short_circuiting_tac`, from `src/src/tac/expr.rs` lines
146-218. The `_ => unreachable!()` arm is `none`. -/
def generate_short_circuiting_tac (op : BinOp) (e1 e2 : Expr) (env : CodeEnv)
    (target : Option Identifier) (sug : Option VarSize) (st : St) :
    Option ((List TacInstr × TacVal) × St) :=
  match chooseFinalTemp target e1 e2 env sug st with
  | none => none
  | some (t, st1) =>
    match op with
    | .LogicalAnd =>
      let (n, st2) := getNewLabelNumber st1
      let labelAndFalse : Lbl := ⟨"label_and_false_", n⟩
      let labelAndEnd : Lbl := ⟨"label_and_end_", n⟩
      match generate_expr_tac e1 env none none st2 with
      | none => none
      | some ((r1, lhsVal), st3) =>
        match generate_expr_tac e2 env none none st3 with
        | none => none
        | some ((r2, rhsVal), st4) =>
          some ((r1 ++ [.JmpZero labelAndFalse lhsVal] ++ r2 ++
                 [.BinOp t rhsVal (.Lit 0 t.size) .NotEquals,
                  .Jmp labelAndEnd,
                  .Label labelAndFalse,
                  .Copy t (.Lit 0 t.size),
                  .Label labelAndEnd], .Var t), st4)
    | .LogicalOr =>
      let (n, st2) := getNewLabelNumber st1
      let labelOrTrue : Lbl := ⟨"label_or_true_", n⟩
      let labelOrEnd : Lbl := ⟨"label_or_end_", n⟩
      match generate_expr_tac e1 env none none st2 with
      | none => none
      | some ((r1, lhsVal), st3) =>
        match generate_expr_tac e2 env none none st3 with
        | none => none
        | some ((r2, rhsVal), st4) =>
          some ((r1 ++ [.JmpNotZero labelOrTrue lhsVal] ++ r2 ++
                 [.BinOp t rhsVal (.Lit 0 t.size) .NotEquals,
                  .Jmp labelOrEnd,
                  .Label labelOrTrue,
                  .Copy t (.Lit 1 t.size),
                  .Label labelOrEnd], .Var t), st4)
    | _ => none
termination_by (1 + sizeOf op + sizeOf e1 + sizeOf e2, 0)

/-- Rust `generate_ternary_tac`, from `src/src/tac/expr.rs` lines 220-267. -/
def generate_ternary_tac (c e1 e2 : Expr) (env : CodeEnv)
    (target : Option Identifier) (sug : Option VarSize) (st : St) :
    Option ((List TacInstr × TacVal) × St) :=
  match chooseFinalTemp target e1 e2 env sug st with
  | none => none
  | some (t, st1) =>
    let (n, st2) := getNewLabelNumber st1
    let labelFalse : Lbl := ⟨"label_ternary_false_", n⟩
    let labelEnd : Lbl := ⟨"label_ternary_end_", n⟩
    match generate_expr_tac c env none none st2 with
    | none => none
    | some ((rc, decisionVal), st3) =>
      match generate_expr_tac e1 env (some t) (some t.size) st3 with
      | none => none
      | some ((r1, _), st4) =>
        match generate_expr_tac e2 env (some t) (some t.size) st4 with
        | none => none
        | some ((r2, _), st5) =>
          some ((rc ++ [.JmpZero labelFalse decisionVal] ++ r1 ++
                 [.Jmp labelEnd, .Label labelFalse] ++ r2 ++
                 [.Label labelEnd], .Var t), st5)
termination_by (1 + sizeOf c + sizeOf e1 + sizeOf e2, 1)

/-- Rust `gen_function_call_tac`, from `src/src/tac/expr.rs` lines 269-297. -/
def gen_function_call_tac (f : String) (args : List Expr) (env : CodeEnv)
    (target : Option Identifier) (st : St) :
    Option ((List TacInstr × TacVal) × St) :=
  let (t, st1) :=
    match target with
    | some ident => (ident, st)
    | none => getNewTempName VarSize.default st
  match gen_args_tac args env st1 with
  | none => none
  | some ((instrs, vals), st2) =>
    some ((instrs ++ [.Call f vals (some t)], .Var t), st2)
termination_by (1 + sizeOf f + sizeOf args, 1)

/-- The argument loop of `gen_function_call_tac` (`src/src/tac/expr.rs`
lines 284-288): lower each argument left to right with no target. -/
def gen_args_tac (args : List Expr) (env : CodeEnv) (st : St) :
    Option ((List TacInstr × List TacVal) × St) :=
  match args with
  | [] => some (([], []), st)
  | a :: rest =>
    match generate_expr_tac a env none none st with
    | none => none
    | some ((r, v), st1) =>
      match gen_args_tac rest env st1 with
      | none => none
      | some ((rs, vs), st2) => some ((r ++ rs, v :: vs), st2)
termination_by (sizeOf args, 0)

end

/-- The TAC list the lowering produces for the expression `1 ? 2 : 3` from
the fresh counter state (the ternary writes its result temporary once in each
branch). -/
def ternaryTac : List TacInstr :=
  [.JmpZero ⟨"label_ternary_false_", 0⟩ (.Lit 1 .Dword),
   .Copy ⟨0, .Dword⟩ (.Lit 2 .Dword),
   .Jmp ⟨"label_ternary_end_", 0⟩,
   .Label ⟨"label_ternary_false_", 0⟩,
   .Copy ⟨0, .Dword⟩ (.Lit 3 .Dword),
   .Label ⟨"label_ternary_end_", 0⟩]

/-- The list `ternaryTac` followed by a read of the result, as `return 1 ? 2 : 3;`
would lower it. -/
def ternaryProgram : List TacInstr :=
  ternaryTac ++ [.Exit (.Var ⟨0, .Dword⟩)]

/-! ## Read and written identifiers of a TAC instruction -/

/-- The temporaries a `TacVal` reads: a literal reads none, `Var(id)` reads
`id`. -/
def TacVal.read_ids : TacVal → List Identifier
  | .Lit _ _ => []
  | .Var id => [id]

/-- Modelled from the spec: `TacInstr::get_read_identifiers` is declared in
`src/tac/tac_instr.rs`, which is not under `src/` (only its caller
`src/src/codegen.rs` is). Per the spec §3 data model, an instruction reads
the temporaries occurring in its source values; `DerefStore(ptr-id, val)`
additionally reads the pointer identifier it stores through. -/
def TacInstr.get_read_identifiers : TacInstr → List Identifier
  | .Exit v => v.read_ids
  | .BinOp _ v1 v2 _ => v1.read_ids ++ v2.read_ids
  | .UnOp _ v _ => v.read_ids
  | .Copy _ src => src.read_ids
  | .Label _ => []
  | .Jmp _ => []
  | .JmpZero _ v => v.read_ids
  | .JmpNotZero _ v => v.read_ids
  | .Call _ args _ => args.foldr (fun v acc => v.read_ids ++ acc) []
  | .DerefStore ptr v => ptr :: v.read_ids

/-- Modelled from the spec: `TacInstr::get_written_identifier`, from
`src/tac/tac_instr.rs` (not under `src/`). Per spec §3, the written
identifier is the `dst-id` of `BinOp`/`UnOp`/`Copy` and the optional `dst-id`
of `Call`; `DerefStore` writes memory, not a temporary. -/
def TacInstr.get_written_identifier : TacInstr → Option Identifier
  | .BinOp dst _ _ _ => some dst
  | .UnOp dst _ _ => some dst
  | .Copy dst _ => some dst
  | .Call _ _ dst => dst
  | _ => none

/-! ## Positions of reads and writes in a TAC list -/

/-- The identifiers read by the instruction at index `i` (none past the
end). -/
def readsAt (l : List TacInstr) (i : Nat) : List Identifier :=
  match l[i]? with
  | some instr => instr.get_read_identifiers
  | none => []

/-- The identifier written by the instruction at index `j`, if any. -/
def writtenAt (l : List TacInstr) (j : Nat) : Option Identifier :=
  (l[j]?).bind TacInstr.get_written_identifier

/-- The sequence of write events of a TAC list: the written destination of
each instruction that has one, in instruction order, with multiplicity. -/
def writeEvents (l : List TacInstr) : List Identifier :=
  l.filterMap TacInstr.get_written_identifier

/-- Index (counting from `i`) of the last occurrence of `x` in `l`. -/
def lastOcc (i : Nat) (l : List Identifier) (x : Identifier) : Option Nat :=
  match l with
  | [] => none
  | t :: rest =>
    match lastOcc (i + 1) rest x with
    | some j => some j
    | none => if t = x then some i else none

/-- The destination of the last instruction of `l` that writes a temporary. -/
def lastWrittenId : List TacInstr → Option Identifier
  | [] => none
  | instr :: rest =>
    match lastWrittenId rest with
    | some w => some w
    | none => instr.get_written_identifier

/-- The labels defined by `Label` instructions of `l`, in order. -/
def labelsOf : List TacInstr → List Lbl
  | [] => []
  | .Label lb :: rest => lb :: labelsOf rest
  | _ :: rest => labelsOf rest

/-! ## Small-step semantics of TAC

A machine state is a program counter and a store assigning a value to every
temporary. This is the execution model the spec's control-flow sentences
(§4.1, §5, §8) describe: straight-line instructions fall through, jumps
transfer control to the unique `Label` carrying their target. -/

/-- The value held by each temporary. -/
def Store := Identifier → I64

/-- Write `v` to temporary `id`. -/
def Store.update (σ : Store) (id : Identifier) (v : I64) : Store :=
  fun i => if i = id then v else σ i

/-- The value of a `TacVal` in store `σ`. -/
def evalVal (σ : Store) : TacVal → I64
  | .Lit v _ => v
  | .Var id => σ id

/-- Unary operations on values. `BitwiseComplement` is the two's-complement
`~a = -a - 1`. -/
def evalUnOp : UnOp → I64 → I64
  | .Negation, a => -a
  | .BitwiseComplement, a => -(a + 1)
  | .Not, a => if a = 0 then 1 else 0

/-- Binary operations on values. Division and modulus follow Rust `i64`
(truncation toward zero); comparisons yield 0 or 1. No claim under
consideration depends on the arithmetic details. -/
def evalBinOp : BinOp → I64 → I64 → I64
  | .Multiply, a, b => a * b
  | .Divide, a, b => Int.tdiv a b
  | .Modulus, a, b => Int.tmod a b
  | .Plus, a, b => a + b
  | .Minus, a, b => a - b
  | .GreaterThan, a, b => if a > b then 1 else 0
  | .GreaterThanEq, a, b => if a ≥ b then 1 else 0
  | .LessThan, a, b => if a < b then 1 else 0
  | .LessThanEq, a, b => if a ≤ b then 1 else 0
  | .Equals, a, b => if a = b then 1 else 0
  | .NotEquals, a, b => if a ≠ b then 1 else 0
  | .LogicalAnd, a, b => if a ≠ 0 ∧ b ≠ 0 then 1 else 0
  | .LogicalOr, a, b => if a ≠ 0 ∨ b ≠ 0 then 1 else 0

/-- Index of the first `Label l` instruction in the program ("every `Label(L)`
instruction has a unique `L`", spec §8, so the first is the only one in
well-formed programs). -/
def findLabel (prog : List TacInstr) (l : Lbl) : Option Nat :=
  match prog with
  | [] => none
  | .Label l' :: rest => if l' = l then some 0 else (findLabel rest l).map (· + 1)
  | _ :: rest => (findLabel rest l).map (· + 1)

/-- One execution step at program counter `s.1` with store `s.2`. `none` is
a halt: running off the end, `Exit`, or a jump to an undefined label. A
`Call`'s returned value is produced outside this program text and is
modelled as 0; no claim under consideration executes a `Call`. -/
def step (prog : List TacInstr) (s : Nat × Store) : Option (Nat × Store) :=
  match prog[s.1]? with
  | none => none
  | some instr =>
    match instr with
    | .Exit _ => none
    | .BinOp dst v1 v2 op =>
      some (s.1 + 1, s.2.update dst (evalBinOp op (evalVal s.2 v1) (evalVal s.2 v2)))
    | .UnOp dst v op => some (s.1 + 1, s.2.update dst (evalUnOp op (evalVal s.2 v)))
    | .Copy dst v => some (s.1 + 1, s.2.update dst (evalVal s.2 v))
    | .Label _ => some (s.1 + 1, s.2)
    | .Jmp l => (findLabel prog l).map (fun j => (j, s.2))
    | .JmpZero l v =>
      if evalVal s.2 v = 0 then (findLabel prog l).map (fun j => (j, s.2))
      else some (s.1 + 1, s.2)
    | .JmpNotZero l v =>
      if evalVal s.2 v = 0 then some (s.1 + 1, s.2)
      else (findLabel prog l).map (fun j => (j, s.2))
    | .Call _ _ dst =>
      some (s.1 + 1, match dst with | some d => s.2.update d 0 | none => s.2)
    | .DerefStore _ _ => some (s.1 + 1, s.2)

/-- Iterate `n` execution steps (`none` if execution halts earlier). -/
def stepN (prog : List TacInstr) : Nat → Nat × Store → Option (Nat × Store)
  | 0, s => some s
  | n + 1, s =>
    match step prog s with
    | none => none
    | some s' => stepN prog n s'

/-- The rank of a size under the spec's tie-break order
`Quad > Dword > Word > Byte` (spec §4.1). -/
def sizeRank : VarSize → Nat
  | .Byte => 0
  | .Word => 1
  | .Dword => 2
  | .Quad => 3

/-- The claim's size rule, written from the spec's words: the max of the two
children's sizes under `Quad > Dword > Word > Byte`, an unknown child
deferring to the other, unknown only when both are unknown. To be compared
with the source's `get_bigger_size`. -/
def maxSizeSpec : Option VarSize → Option VarSize → Option VarSize
  | none, none => none
  | some a, none => some a
  | none, some b => some b
  | some a, some b => some (if sizeRank b ≤ sizeRank a then a else b)

end Tac

namespace Codegen

open Tac

/-- Modelled from the spec: `Reg` is declared in `src/codegen/reg.rs`, which
is not under `src/`; the registers are those named in spec §4.4 and used by
`src/src/codegen.rs`. -/
inductive Reg where
  | Rax
  | Rcx
  | Rdx
  | Rdi
  | Rsi
  | R8
  | R9
  | Rbp
  | Rsp
deriving DecidableEq, Repr

/-- Rust `Location`, from `src/src/codegen.rs` lines 98-102. `Mem k` is the offset
from `rbp`. -/
inductive Location where
  | Reg (r : Reg)
  | Mem (offset : Nat)
deriving DecidableEq, Repr

/-- Rust `CCode`, from `src/src/codegen.rs` lines 51-59. -/
inductive CCode where
  | E
  | NE
  | L
  | LE
  | G
  | GE
deriving DecidableEq, Repr

/-- Rust `X86Instr`, from `src/src/codegen.rs` lines 74-96. Immediates (`i32`)
are modelled as `Int`. -/
inductive X86Instr where
  | Push (reg : Reg)
  | Pop (reg : Reg)
  | Mov (dst : Location) (src : Location)
  | MovImm (dst : Location) (imm : I64)
  | Add (dst : Reg) (src : Reg)
  | Sub (dst : Reg) (src : Reg)
  | IMul (dst : Reg) (src : Reg)
  | SubImm (dst : Reg) (imm : I64)
  | Cdq
  | Idiv (src : Reg)
  | Label (name : Lbl)
  | Jmp (label : Lbl)
  | JmpCC (label : Lbl) (condition : CCode)
  | SetCC (dst : Reg) (condition : CCode)
  | Test (src : Reg)
  | Cmp (left : Reg) (right : Reg)
  | Not (dst : Reg)
  | Neg (dst : Reg)
  | Call (name : String)
  | Syscall
deriving DecidableEq, Repr

/-- The first pass of `RegisterAllocator::new` (`src/src/codegen.rs` lines
21-32): walk the instructions, panic (`none`) if an instruction reads a
temporary that is not yet in `set_of_temporaries`, and push the written
identifier (if any) unconditionally — duplicates included. -/
def collectTemporaries (instrs : List TacInstr) (seen : List Identifier) :
    Option (List Identifier) :=
  match instrs with
  | [] => some seen
  | instr :: rest =>
    if instr.get_read_identifiers.all (fun id => seen.contains id) then
      collectTemporaries rest
        (match instr.get_written_identifier with
         | some id => seen ++ [id]
         | none => seen)
    else
      none

/-- The insertion loop of `RegisterAllocator::new` (`src/src/codegen.rs`
lines 34-41): `map.insert(t, Mem((index + 1) * 4))` for each enumerated
element of `set_of_temporaries`. The `HashMap` is modelled as an association
list where insertion prepends and lookup takes the first match, which is
exactly overwrite semantics. -/
def allocMapAux : Nat → List Identifier → List (Identifier × Location) →
    List (Identifier × Location)
  | _, [], m => m
  | index, t :: rest, m => allocMapAux (index + 1) rest ((t, .Mem ((index + 1) * 4)) :: m)

/-- Rust `RegisterAllocator`, from `src/src/codegen.rs` lines 15-17. -/
structure RegisterAllocator where
  map : List (Identifier × Location)
deriving DecidableEq, Repr

/-- Rust `RegisterAllocator::new`, from `src/src/codegen.rs` lines 20-44: the
collection pass then the insertion loop; `bytes_needed` grows by 4 once per
element of `set_of_temporaries`. `none` is the read-before-write panic. -/
def RegisterAllocator.new (tac_instrs : List TacInstr) :
    Option (RegisterAllocator × Nat) :=
  match collectTemporaries tac_instrs [] with
  | none => none
  | some set_of_temporaries =>
    some (⟨allocMapAux 0 set_of_temporaries []⟩, 4 * set_of_temporaries.length)

/-- Rust `RegisterAllocator::get_location`, from `src/src/codegen.rs` lines 46-48
(`unwrap` of a missing key is `none`). -/
def RegisterAllocator.get_location (ra : RegisterAllocator) (temporary : Identifier) :
    Option Location :=
  (ra.map.find? (fun p => p.1 = temporary)).map (fun p => p.2)

/-- Rust `gen_load_val_code`, from `src/src/codegen.rs` lines 184-203: a literal
becomes `MovImm`, a variable a `Mov` from its allocated location. -/
def gen_load_val_code (val : TacVal) (reg : Reg) (reg_alloc : RegisterAllocator) :
    Option (List X86Instr) :=
  match val with
  | .Lit imm _ => some [.MovImm (.Reg reg) imm]
  | .Var var_ident =>
    match reg_alloc.get_location var_ident with
    | none => none
    | some loc => some [.Mov (.Reg reg) loc]

/-- The condition-code mapping of spec §4.4 (`Equals→E, NotEquals→NE,
LessThan→L, LessThanEq→LE, GreaterThan→G, GreaterThanEq→GE`), used by the
comparison arm of `gen_binop_code`; `none` for non-comparison operators. -/
def ccodeOfBinOp : BinOp → Option CCode
  | .Equals => some .E
  | .NotEquals => some .NE
  | .LessThan => some .L
  | .LessThanEq => some .LE
  | .GreaterThan => some .G
  | .GreaterThanEq => some .GE
  | _ => none

/-- Modelled from the spec: `gen_binop_code` lives in
`src/codegen/binop.rs`, which is not under `src/`. Spec §4.4 table:
additive/multiplicative operations load the operands into RDI and RSI and
store RDI; division loads the dividend into RAX, sign-extends, divides by
RDI and stores RAX (RDX for modulus); comparisons compare, zero RDI, `SetCC`
and store. `LogicalAnd`/`LogicalOr` never reach the code generator (spec
§4.4: an unknown form is a fatal internal invariant violation). -/
def gen_binop_code (dst : Identifier) (v1 v2 : TacVal) (op : BinOp)
    (reg_alloc : RegisterAllocator) : Option (List X86Instr) :=
  match reg_alloc.get_location dst with
  | none => none
  | some dloc =>
    match op with
    | .Plus =>
      match gen_load_val_code v1 .Rdi reg_alloc, gen_load_val_code v2 .Rsi reg_alloc with
      | some l1, some l2 => some (l1 ++ l2 ++ [.Add .Rdi .Rsi, .Mov dloc (.Reg .Rdi)])
      | _, _ => none
    | .Minus =>
      match gen_load_val_code v1 .Rdi reg_alloc, gen_load_val_code v2 .Rsi reg_alloc with
      | some l1, some l2 => some (l1 ++ l2 ++ [.Sub .Rdi .Rsi, .Mov dloc (.Reg .Rdi)])
      | _, _ => none
    | .Multiply =>
      match gen_load_val_code v1 .Rdi reg_alloc, gen_load_val_code v2 .Rsi reg_alloc with
      | some l1, some l2 => some (l1 ++ l2 ++ [.IMul .Rdi .Rsi, .Mov dloc (.Reg .Rdi)])
      | _, _ => none
    | .Divide =>
      match gen_load_val_code v1 .Rax reg_alloc, gen_load_val_code v2 .Rdi reg_alloc with
      | some l1, some l2 =>
        some (l1 ++ [.Cdq] ++ l2 ++ [.Idiv .Rdi, .Mov dloc (.Reg .Rax)])
      | _, _ => none
    | .Modulus =>
      match gen_load_val_code v1 .Rax reg_alloc, gen_load_val_code v2 .Rdi reg_alloc with
      | some l1, some l2 =>
        some (l1 ++ [.Cdq] ++ l2 ++ [.Idiv .Rdi, .Mov dloc (.Reg .Rdx)])
      | _, _ => none
    | _ =>
      match ccodeOfBinOp op with
      | none => none
      | some cc =>
        match gen_load_val_code v1 .Rdi reg_alloc, gen_load_val_code v2 .Rsi reg_alloc with
        | some l1, some l2 =>
          some (l1 ++ l2 ++
            [.Cmp .Rdi .Rsi, .MovImm (.Reg .Rdi) 0, .SetCC .Rdi cc, .Mov dloc (.Reg .Rdi)])
        | _, _ => none

/-- Modelled from the spec: `gen_unop_code` lives in `src/codegen/unop.rs`,
which is not under `src/`. Spec §4.4 table: negate and bitwise complement
load, apply `Neg`/`Not` and store; logical not tests, zeroes RDI, `SetCC E`
and stores. -/
def gen_unop_code (dst : Identifier) (v : TacVal) (op : UnOp)
    (reg_alloc : RegisterAllocator) : Option (List X86Instr) :=
  match reg_alloc.get_location dst, gen_load_val_code v .Rdi reg_alloc with
  | some dloc, some l =>
    match op with
    | .Negation => some (l ++ [.Neg .Rdi, .Mov dloc (.Reg .Rdi)])
    | .BitwiseComplement => some (l ++ [.Not .Rdi, .Mov dloc (.Reg .Rdi)])
    | .Not =>
      some (l ++ [.Test .Rdi, .MovImm (.Reg .Rdi) 0, .SetCC .Rdi .E, .Mov dloc (.Reg .Rdi)])
  | _, _ => none

/-- The System V integer-argument registers, in order (spec §4.4 and §10). -/
def argRegs : List Reg := [.Rdi, .Rsi, .Rdx, .Rcx, .R8, .R9]

/-- Modelled from the spec: `generate_function_call_code` lives in
`src/codegen/functions.rs`, which is not under `src/`. Spec §4.4: load the
arguments into RDI, RSI, RDX, RCX, R8, R9 in order (more than six is
unspecified, modelled as a failure), `Call f`, then store RAX into the
destination when one is given. -/
def generate_function_call_code (function_name : String) (args : List TacVal)
    (optional_ident : Option Identifier) (reg_alloc : RegisterAllocator) :
    Option (List X86Instr) :=
  if args.length ≤ argRegs.length then
    let loads := (args.zip argRegs).foldr
      (fun (p : TacVal × Reg) acc =>
        match gen_load_val_code p.1 p.2 reg_alloc, acc with
        | some l, some rest => some (l ++ rest)
        | _, _ => none)
      (some [])
    match loads with
    | none => none
    | some ls =>
      match optional_ident with
      | none => some (ls ++ [.Call function_name])
      | some dst =>
        match reg_alloc.get_location dst with
        | none => none
        | some dloc => some (ls ++ [.Call function_name, .Mov dloc (.Reg .Rax)])
  else
    none

/-- Rust `gen_x86_for_tac`, from `src/src/codegen.rs` lines 134-182, arm for arm.
The `src/src/codegen.rs` match has no `DerefStore` arm; an unknown
instruction form is a fatal internal invariant violation (spec §4.4), hence
`none`. -/
def gen_x86_for_tac (instr : TacInstr) (reg_alloc : RegisterAllocator) :
    Option (List X86Instr) :=
  match instr with
  | .Exit val =>
    match gen_load_val_code val .Rdi reg_alloc with
    | none => none
    | some l => some (l ++ [.MovImm (.Reg .Rax) 60, .Syscall])
  | .BinOp dst_ident val1 val2 op => gen_binop_code dst_ident val1 val2 op reg_alloc
  | .UnOp dst_ident val op => gen_unop_code dst_ident val op reg_alloc
  | .Copy dst_ident src_val =>
    match gen_load_val_code src_val .Rdi reg_alloc, reg_alloc.get_location dst_ident with
    | some l, some dloc => some (l ++ [.Mov dloc (.Reg .Rdi)])
    | _, _ => none
  | .Label label_name => some [.Label label_name]
  | .Jmp label_name => some [.Jmp label_name]
  | .JmpZero label_name val =>
    match gen_load_val_code val .Rdi reg_alloc with
    | none => none
    | some l => some (l ++ [.Test .Rdi, .JmpCC label_name .E])
  | .JmpNotZero label_name val =>
    match gen_load_val_code val .Rdi reg_alloc with
    | none => none
    | some l => some (l ++ [.Test .Rdi, .JmpCC label_name .NE])
  | .Call function_name args optional_ident =>
    generate_function_call_code function_name args optional_ident reg_alloc
  | .DerefStore _ _ => none

/-- The per-instruction loop of `generate_x86_code` (`src/src/codegen.rs`
lines 120-122). -/
def genBody (instrs : List TacInstr) (reg_alloc : RegisterAllocator) :
    Option (List X86Instr) :=
  match instrs with
  | [] => some []
  | i :: rest =>
    match gen_x86_for_tac i reg_alloc, genBody rest reg_alloc with
    | some l, some ls => some (l ++ ls)
    | _, _ => none

/-- Rust `generate_x86_code`, from `src/src/codegen.rs` lines 104-132: allocator,
fixed prologue, per-instruction expansion, fixed epilogue. -/
def generate_x86_code (tac_instrs : List TacInstr) : Option (List X86Instr) :=
  match RegisterAllocator.new tac_instrs with
  | none => none
  | some (reg_alloc, num_bytes_needed) =>
    match genBody tac_instrs reg_alloc with
    | none => none
    | some body =>
      some ([.Push .Rbp,
             .Mov (.Reg .Rbp) (.Reg .Rsp),
             .SubImm .Rsp (num_bytes_needed : Int)] ++
            body ++
            [.Mov (.Reg .Rsp) (.Reg .Rbp),
             .Pop .Rbp])

end Codegen

namespace ArrInit

open Tac

/-!
`src/src/tac/array_init_expr.rs` belongs to a later revision of the
repository: its `Expr` is a struct wrapping an `ExprEnum` with an
`ArrInitExpr` variant, it uses `VarType` from `src/types.rs`, and it calls
the `ValTarget`-style `generate_expr_tac` — none of which are under `src/`.
Only the distinction "element is itself an `ArrInitExpr` / element is any
other expression" matters to `gen_arr_init_expr_tac`, so the expression type
is modelled with exactly that distinction, and the missing
`generate_expr_tac(expr, code_env, ValTarget::Generate)` is an opaque
parameter `genExpr`.
-/

/-- Modelled from the spec: `VarType`, from `src/types.rs` (not under
`src/`): a fundamental type of some size, a pointer, or an array of `n`
elements (`VarType::{Fund, Ptr, Arr}` as matched in
`src/src/tac/array_init_expr.rs`). -/
inductive VarType where
  | Fund (s : VarSize)
  | Ptr (inner : VarType)
  | Arr (inner : VarType) (n : Nat)
deriving DecidableEq, Repr

/-- Modelled from the spec: `VarType::num_bytes` (not under `src/`); the
"element size S" of spec §4.1: byte sizes of the fundamental sizes, 8 for a
pointer, and element count times element size for an array. -/
def VarType.num_bytes : VarType → Nat
  | .Fund .Byte => 1
  | .Fund .Word => 2
  | .Fund .Dword => 4
  | .Fund .Quad => 8
  | .Ptr _ => 8
  | .Arr inner n => n * inner.num_bytes

/-- The later revision's expression type, restricted to the distinction
`gen_arr_init_expr_tac` inspects: an array-initializer list (`ExprEnum::ArrInitExpr`)
or any other expression content (opaque here, carried as the earlier
revision's expression type). -/
inductive AExpr where
  | ArrInitExpr (elems : List AExpr)
  | Scalar (e : Expr)

/-- The type of the missing `ValTarget`-style `generate_expr_tac` used for
non-initializer elements (`generate_expr_tac(expr, code_env,
ValTarget::Generate)`): it produces instructions and the value holding the
element, threading the counters, `none` on panic. -/
abbrev GenExprFn := Expr → CodeEnv → St → Option ((List TacInstr × TacVal) × St)

mutual

/-- Rust `gen_arr_init_expr_tac`, from `src/src/tac/array_init_expr.rs` lines
13-58. The `_ => unreachable!()` on a non-`ArrInitExpr` argument is
`none`. -/
def gen_arr_init_expr_tac (genExpr : GenExprFn) (arr_type : VarType)
    (arr_init_expr : AExpr) (ptr_to_arr : Identifier) (code_env : CodeEnv)
    (st : St) : Option (List TacInstr × St) :=
  match arr_init_expr with
  | .Scalar _ => none
  | .ArrInitExpr exprs => arrInitLoop genExpr arr_type exprs ptr_to_arr code_env st

/-- The `for expr in exprs` loop of `gen_arr_init_expr_tac`
(`src/src/tac/array_init_expr.rs` lines 28-55): a nested initializer copies
the pointer into a fresh `Quad` temporary and recurses with the array's
inner type (`unreachable!()` if the type is not an array); any other element
is evaluated and stored through the pointer; after each element the pointer
is advanced by `arr_type.num_bytes()`. -/
def arrInitLoop (genExpr : GenExprFn) (arr_type : VarType) (exprs : List AExpr)
    (ptr_to_arr : Identifier) (code_env : CodeEnv) (st : St) :
    Option (List TacInstr × St) :=
  match exprs with
  | [] => some ([], st)
  | expr :: rest =>
    match expr with
    | .ArrInitExpr _ =>
      match arr_type with
      | .Arr inner _ =>
        let (new_ptr, st1) := getNewTempName .Quad st
        match gen_arr_init_expr_tac genExpr inner expr new_ptr code_env st1 with
        | none => none
        | some (instrs, st2) =>
          match arrInitLoop genExpr arr_type rest ptr_to_arr code_env st2 with
          | none => none
          | some (restInstrs, st3) =>
            some (.Copy new_ptr (.Var ptr_to_arr) :: instrs ++
                  [.BinOp ptr_to_arr (.Var ptr_to_arr)
                    (.Lit (arr_type.num_bytes : Int) .Quad) .Plus] ++ restInstrs, st3)
      | .Fund _ => none
      | .Ptr _ => none
    | .Scalar s =>
      match genExpr s code_env st with
      | none => none
      | some ((expr_instrs, tac_val), st1) =>
        match arrInitLoop genExpr arr_type rest ptr_to_arr code_env st1 with
        | none => none
        | some (restInstrs, st2) =>
          some (expr_instrs ++
                [.DerefStore ptr_to_arr tac_val,
                 .BinOp ptr_to_arr (.Var ptr_to_arr)
                   (.Lit (arr_type.num_bytes : Int) .Quad) .Plus] ++ restInstrs, st2)

end

/-- The claim's per-element block, written from the spec's words (§4.1
"ArrInitExpr"): a nested initializer contributes a copy of the pointer into
a fresh pointer followed by the recursive lowering over it; any other
element contributes its evaluation followed by `DerefStore(p, val)`; every
element is followed by exactly one `BinOp(p, Var(p), Lit(S, Quad), Plus)`.
To be compared with the source's `gen_arr_init_expr_tac`. -/
def specElementBlock (genExpr : GenExprFn) (arr_type : VarType) (expr : AExpr)
    (p : Identifier) (code_env : CodeEnv) (st : St) :
    Option (List TacInstr × St) :=
  let advance : TacInstr :=
    .BinOp p (.Var p) (.Lit (arr_type.num_bytes : Int) .Quad) .Plus
  match expr with
  | .ArrInitExpr _ =>
    match arr_type with
    | .Arr inner _ =>
      let (p', st1) := getNewTempName .Quad st
      match gen_arr_init_expr_tac genExpr inner expr p' code_env st1 with
      | none => none
      | some (instrs, st2) => some (.Copy p' (.Var p) :: instrs ++ [advance], st2)
    | _ => none
  | .Scalar s =>
    match genExpr s code_env st with
    | none => none
    | some ((instrs, v), st1) =>
      some (instrs ++ [.DerefStore p v, advance], st1)

/-- The claim's whole-initializer lowering, from the spec's words: the
concatenation of the per-element blocks, left to right. -/
def specArrInitLowering (genExpr : GenExprFn) (arr_type : VarType)
    (exprs : List AExpr) (p : Identifier) (code_env : CodeEnv) (st : St) :
    Option (List TacInstr × St) :=
  match exprs with
  | [] => some ([], st)
  | e :: rest =>
    match specElementBlock genExpr arr_type e p code_env st with
    | none => none
    | some (block, st1) =>
      match specArrInitLowering genExpr arr_type rest p code_env st1 with
      | none => none
      | some (blocks, st2) => some (block ++ blocks, st2)

end ArrInit

namespace Parser

open Tac

/-!
The parser files under `src/` (`src/src/parser.rs`,
`src/src/parser/expr_parser.rs`, `src/src/parser/for_loop_parser.rs`) use a
later tokenizer than the one under `src/` (`src/src/tokenizer/mod.rs` lacks
the `Type`, `AssignmentEquals`, keyword and compound-operator tokens those
files match on). The token and operator types are therefore modelled from
the spec's token enumeration (§3, §6) plus the variants the parser files
use. The `TokenCursor` is modelled as the list of remaining tokens; each
parsing function consumes a prefix and returns the rest. Rust's recursion
is reproduced with a fuel parameter: `none` means the parse fails for every
amount of fuel spent, and enough fuel always reaches the source's own
behaviour, panics (`err_display`, `assert_eq!`, process exit) included,
which are also `none`.
-/

/-- Modelled from the spec: operator tokens, from `src/tokenizer/operator.rs`
(not under `src/`): the spec §3 operator list plus the variants matched in
the parser files. -/
inductive Op where
  | Plus
  | Minus
  | Star
  | Slash
  | Percent
  | LessThanTok
  | LessThanEqTok
  | GreaterThanTok
  | GreaterThanEqTok
  | DoubleEquals
  | NotEqualsTok
  | AndAnd
  | OrOr
  | BitwiseComplement
  | Not
  | PlusPlus
  | MinusMinus
  | PlusEquals
  | MinusEquals
deriving DecidableEq, Repr

/-- Modelled from the spec: the type carried by `Token::Type` (§3: "type
keyword such as `int`"); opaque to the claims about the parser. -/
inductive CType where
  | IntT
deriving DecidableEq, Repr

/-- Modelled from the spec: the later tokenizer's `Token` (its file is not
under `src/`): the spec §3 token enumeration, with exactly the variants the
parser files under `src/` match on. -/
inductive Token where
  | OpenParen
  | CloseParen
  | OpenBrace
  | CloseBrace
  | Semicolon
  | Comma
  | Colon
  | QuestionMark
  | IntLit (val : String)
  | Identifier (val : String)
  | KwReturn
  | KwIf
  | KwElse
  | KwWhile
  | KwFor
  | KwBreak
  | KwContinue
  | Type (t : CType)
  | AssignmentEquals
  | Op (op : Op)
deriving DecidableEq, Repr

/-- Rust `BinOpPrecedenceLevel`, from `src/src/parser/expr_parser.rs` lines
44-52. -/
inductive BinOpPrecedenceLevel where
  | MulDiv
  | AddSub
  | OrderingCmp
  | EqCmp
  | LogicalAnd
  | LogicalOr
deriving DecidableEq, Repr

/-- Rust `BinOpPrecedenceLevel::next_level`, from `src/src/parser/expr_parser.rs`
lines 55-64. -/
def BinOpPrecedenceLevel.next_level : BinOpPrecedenceLevel → Option BinOpPrecedenceLevel
  | .LogicalOr => some .LogicalAnd
  | .LogicalAnd => some .EqCmp
  | .EqCmp => some .OrderingCmp
  | .OrderingCmp => some .AddSub
  | .AddSub => some .MulDiv
  | .MulDiv => none

/-- Rust `BinOpPrecedenceLevel::lowest_level`, from `src/src/parser/expr_parser.rs`
lines 66-68. -/
def BinOpPrecedenceLevel.lowest_level : BinOpPrecedenceLevel := .LogicalOr

/-- Modelled from the spec: `Token::to_binop_precedence_level` (declared in
the later tokenizer, not under `src/`): the binary operator denoted by the
token if it sits on the queried precedence level. -/
def Token.to_binop_precedence_level : Token → BinOpPrecedenceLevel → Option BinOp
  | .Op o, lvl =>
    match lvl, o with
    | .MulDiv, .Star => some .Multiply
    | .MulDiv, .Slash => some .Divide
    | .MulDiv, .Percent => some .Modulus
    | .AddSub, .Plus => some .Plus
    | .AddSub, .Minus => some .Minus
    | .OrderingCmp, .LessThanTok => some .LessThan
    | .OrderingCmp, .LessThanEqTok => some .LessThanEq
    | .OrderingCmp, .GreaterThanTok => some .GreaterThan
    | .OrderingCmp, .GreaterThanEqTok => some .GreaterThanEq
    | .EqCmp, .DoubleEquals => some .Equals
    | .EqCmp, .NotEqualsTok => some .NotEquals
    | .LogicalAnd, .AndAnd => some .LogicalAnd
    | .LogicalOr, .OrOr => some .LogicalOr
    | _, _ => none
  | _, _ => none

/-- Rust `Token::to_un_op`, from `src/src/tokenizer/mod.rs` lines 38-45. -/
def Token.to_un_op : Token → Option UnOp
  | .Op .Minus => some .Negation
  | .Op .BitwiseComplement => some .BitwiseComplement
  | .Op .Not => some .Not
  | _ => none

/-- Rust `Statement`, from `src/src/parser.rs` lines 22-33. -/
inductive Statement where
  | Continue
  | Break
  | Return (e : Expr)
  | Declare (name : String) (init : Option Expr) (ty : CType)
  | CompoundStmt (stmts : List Statement)
  | If (cond : Expr) (taken : Statement) (notTaken : Option Statement)
  | While (cond : Expr) (body : Statement)
  | For (init : Statement) (cond : Option Expr) (post : Option Expr) (body : Statement)
  | Expr (e : Expr)
  | Empty

/-- Rust `Function`, from `src/src/parser.rs` lines 16-19. -/
structure Function where
  name : String
  body : List Statement

/-- Rust `i32::from_str_radix(val, 10).unwrap()` from
`src/src/parser/expr_parser.rs` line 194: a non-empty all-digit decimal
string in `i32` range, panic (`none`) otherwise. -/
def parseI32 (val : String) : Option Int :=
  if val.data ≠ [] ∧ val.data.all (fun c => c.isDigit) then
    let n : Nat := val.data.foldl (fun acc c => acc * 10 + (c.toNat - 48)) 0
    if n ≤ 2147483647 then some (n : Int) else none
  else
    none

mutual

/-- Rust `generate_expr_ast`, from `src/src/parser/expr_parser.rs` lines 71-167.
At the lowest level, `x = e` / `x += e` / `x -= e` are recognised by looking
two tokens ahead; otherwise the next-tighter level (or a factor) is parsed
and the level's left-associative operator loop runs. -/
def generate_expr_ast (fuel : Nat) (tokens : List Token)
    (curr : BinOpPrecedenceLevel) : Option (Expr × List Token) :=
  match fuel with
  | 0 => none
  | fuel + 1 =>
    match tokens with
    | .Identifier val :: .AssignmentEquals :: rest =>
      if curr = BinOpPrecedenceLevel.lowest_level then
        match generate_expr_ast fuel rest BinOpPrecedenceLevel.lowest_level with
        | none => none
        | some (rhs, rest') => some (.Assign val rhs, rest')
      else
        exprLevel fuel tokens curr
    | .Identifier val :: .Op .PlusEquals :: rest =>
      if curr = BinOpPrecedenceLevel.lowest_level then
        match generate_expr_ast fuel rest BinOpPrecedenceLevel.lowest_level with
        | none => none
        | some (rhs, rest') =>
          some (.Assign val (.BinOp .Plus (.Var val) rhs), rest')
      else
        exprLevel fuel tokens curr
    | .Identifier val :: .Op .MinusEquals :: rest =>
      if curr = BinOpPrecedenceLevel.lowest_level then
        match generate_expr_ast fuel rest BinOpPrecedenceLevel.lowest_level with
        | none => none
        | some (rhs, rest') =>
          some (.Assign val (.BinOp .Minus (.Var val) rhs), rest')
      else
        exprLevel fuel tokens curr
    | _ => exprLevel fuel tokens curr
termination_by structural fuel

/-- Lines 117-166 of `src/src/parser/expr_parser.rs`: parse the first
operand at the next-tighter level (a factor at the tightest), then run the
operator loop. -/
def exprLevel (fuel : Nat) (tokens : List Token) (curr : BinOpPrecedenceLevel) :
    Option (Expr × List Token) :=
  match fuel with
  | 0 => none
  | fuel + 1 =>
    match
      (match curr.next_level with
       | some nxt => generate_expr_ast fuel tokens nxt
       | none => generate_factor_ast fuel tokens) with
    | none => none
    | some (e, rest) => exprLoop fuel e rest curr
termination_by structural fuel

/-- The `while tokens.peek().is_some()` loop of `generate_expr_ast`
(`src/src/parser/expr_parser.rs` lines 126-165): a `?` at the lowest level
parses a ternary and returns; a binary operator on the current level parses
the next operand and continues left-associatively; anything else breaks. -/
def exprLoop (fuel : Nat) (expr : Expr) (tokens : List Token)
    (curr : BinOpPrecedenceLevel) : Option (Expr × List Token) :=
  match fuel with
  | 0 => none
  | fuel + 1 =>
    match tokens with
    | [] => some (expr, [])
    | tok :: rest =>
      if tok = .QuestionMark ∧ curr = BinOpPrecedenceLevel.lowest_level then
        match generate_expr_ast fuel rest BinOpPrecedenceLevel.lowest_level with
        | none => none
        | some (firstExpr, rest1) =>
          match rest1 with
          | .Colon :: rest2 =>
            match generate_expr_ast fuel rest2 BinOpPrecedenceLevel.lowest_level with
            | none => none
            | some (secondExpr, rest3) =>
              some (.Ternary expr firstExpr secondExpr, rest3)
          | _ => none
      else
        match tok.to_binop_precedence_level curr with
        | some nextOp =>
          match
            (match curr.next_level with
             | some nxt => generate_expr_ast fuel rest nxt
             | none => generate_factor_ast fuel rest) with
          | none => none
          | some (nextExpr, rest1) =>
            exprLoop fuel (.BinOp nextOp expr nextExpr) rest1 curr
        | none => some (expr, tokens)
termination_by structural fuel

/-- Rust `generate_factor_ast`, from `src/src/parser/expr_parser.rs` lines
169-247. -/
def generate_factor_ast (fuel : Nat) (tokens : List Token) :
    Option (Expr × List Token) :=
  match fuel with
  | 0 => none
  | fuel + 1 =>
    match tokens with
    | .OpenParen :: rest =>
      match generate_expr_ast fuel rest BinOpPrecedenceLevel.lowest_level with
      | none => none
      | some (e, rest1) =>
        match rest1 with
        | .CloseParen :: rest2 => some (e, rest2)
        | _ => none
    | .IntLit val :: rest =>
      match parseI32 val with
      | none => none
      | some v => some (.Int v, rest)
    | .Identifier val :: .Op .MinusMinus :: rest => some (.PostfixDec val, rest)
    | .Identifier val :: .Op .PlusPlus :: rest => some (.PostfixInc val, rest)
    | .Identifier val :: .OpenParen :: rest =>
      match parse_function_args fuel rest with
      | none => none
      | some (args, rest1) =>
        match rest1 with
        | .CloseParen :: rest2 => some (.FunctionCall val args, rest2)
        | _ => none
    | .Identifier val :: rest => some (.Var val, rest)
    | .Op .PlusPlus :: .Identifier val :: rest => some (.PrefixInc val, rest)
    | .Op .MinusMinus :: .Identifier val :: rest => some (.PrefixDec val, rest)
    | tok :: rest =>
      match tok.to_un_op with
      | some un_op =>
        match generate_factor_ast fuel rest with
        | none => none
        | some (factor, rest1) => some (.UnOp un_op factor, rest1)
      | none => none
    | [] => none
termination_by structural fuel

/-- Rust `parse_function_args`, from `src/src/parser/expr_parser.rs` lines
249-268. -/
def parse_function_args (fuel : Nat) (tokens : List Token) :
    Option (List Expr × List Token) :=
  match fuel with
  | 0 => none
  | fuel + 1 =>
    match tokens with
    | .CloseParen :: _ => some ([], tokens)
    | _ => argsLoop fuel tokens
termination_by structural fuel

/-- The argument loop of `parse_function_args`: an expression, then another
round after a comma. -/
def argsLoop (fuel : Nat) (tokens : List Token) :
    Option (List Expr × List Token) :=
  match fuel with
  | 0 => none
  | fuel + 1 =>
    match generate_expr_ast fuel tokens BinOpPrecedenceLevel.lowest_level with
    | none => none
    | some (arg, rest) =>
      match rest with
      | .Comma :: rest1 =>
        match argsLoop fuel rest1 with
        | none => none
        | some (args, rest2) => some (arg :: args, rest2)
      | _ => some ([arg], rest)
termination_by structural fuel

end

mutual

/-- Rust `generate_statement_ast`, from `src/src/parser.rs` lines 107-201, arm
for arm; `assert_eq!` failures are `none`. -/
def generate_statement_ast (fuel : Nat) (tokens : List Token) :
    Option (Statement × List Token) :=
  match fuel with
  | 0 => none
  | fuel + 1 =>
    match tokens with
    | .KwContinue :: .Semicolon :: rest => some (.Continue, rest)
    | .KwContinue :: _ => none
    | .KwBreak :: .Semicolon :: rest => some (.Break, rest)
    | .KwBreak :: _ => none
    | .KwReturn :: rest =>
      match generate_expr_ast fuel rest BinOpPrecedenceLevel.lowest_level with
      | none => none
      | some (e, rest1) =>
        match rest1 with
        | .Semicolon :: rest2 => some (.Return e, rest2)
        | _ => none
    | .Type t :: rest =>
      match rest with
      | .Identifier val :: .AssignmentEquals :: rest1 =>
        match generate_expr_ast fuel rest1 BinOpPrecedenceLevel.lowest_level with
        | none => none
        | some (e, rest2) =>
          match rest2 with
          | .Semicolon :: rest3 => some (.Declare val (some e) t, rest3)
          | _ => none
      | .Identifier val :: .Semicolon :: rest1 => some (.Declare val none t, rest1)
      | _ => none
    | .OpenBrace :: _ =>
      match generate_compound_stmt_ast fuel tokens with
      | none => none
      | some (stmts, rest) => some (.CompoundStmt stmts, rest)
    | .KwIf :: .OpenParen :: rest =>
      match generate_expr_ast fuel rest BinOpPrecedenceLevel.lowest_level with
      | none => none
      | some (cond, rest1) =>
        match rest1 with
        | .CloseParen :: rest2 =>
          match generate_statement_ast fuel rest2 with
          | none => none
          | some (taken, rest3) =>
            match rest3 with
            | .KwElse :: rest4 =>
              match generate_statement_ast fuel rest4 with
              | none => none
              | some (notTaken, rest5) => some (.If cond taken (some notTaken), rest5)
            | _ => some (.If cond taken none, rest3)
        | _ => none
    | .KwIf :: _ => none
    | .KwWhile :: .OpenParen :: rest =>
      match generate_expr_ast fuel rest BinOpPrecedenceLevel.lowest_level with
      | none => none
      | some (cond, rest1) =>
        match rest1 with
        | .CloseParen :: rest2 =>
          match generate_statement_ast fuel rest2 with
          | none => none
          | some (body, rest3) => some (.While cond body, rest3)
        | _ => none
    | .KwWhile :: _ => none
    | .Semicolon :: rest => some (.Empty, rest)
    | .KwFor :: _ => generate_for_loop_ast fuel tokens
    | _ =>
      match generate_expr_ast fuel tokens BinOpPrecedenceLevel.lowest_level with
      | none => none
      | some (e, rest) =>
        match rest with
        | .Semicolon :: rest1 => some (.Expr e, rest1)
        | _ => none

/-- Rust `generate_compound_stmt_ast`, from `src/src/parser.rs` lines 95-105:
an opening brace, statements until a closing brace, the closing brace. -/
def generate_compound_stmt_ast (fuel : Nat) (tokens : List Token) :
    Option (List Statement × List Token) :=
  match fuel with
  | 0 => none
  | fuel + 1 =>
    match tokens with
    | .OpenBrace :: rest =>
      match compoundLoop fuel rest with
      | none => none
      | some (stmts, rest1) =>
        match rest1 with
        | .CloseBrace :: rest2 => some (stmts, rest2)
        | _ => none
    | _ => none

/-- The `while` loop of `generate_compound_stmt_ast`: statements while the
next token exists and is not a closing brace. -/
def compoundLoop (fuel : Nat) (tokens : List Token) :
    Option (List Statement × List Token) :=
  match fuel with
  | 0 => none
  | fuel + 1 =>
    match tokens with
    | [] => some ([], [])
    | .CloseBrace :: _ => some ([], tokens)
    | _ =>
      match generate_statement_ast fuel tokens with
      | none => none
      | some (s, rest) =>
        match compoundLoop fuel rest with
        | none => none
        | some (stmts, rest1) => some (s :: stmts, rest1)

/-- Rust `generate_for_loop_ast`, from `src/src/parser/for_loop_parser.rs` lines
5-58. -/
def generate_for_loop_ast (fuel : Nat) (tokens : List Token) :
    Option (Statement × List Token) :=
  match fuel with
  | 0 => none
  | fuel + 1 =>
    match tokens with
    | .KwFor :: .OpenParen :: rest =>
      match
        (match rest with
         | .Type _ :: _ =>
           match generate_for_loop_decl_expr fuel rest with
           | none => none
           | some (s, rest1) => some ((s, rest1), ())
         | .Semicolon :: _ => some ((.Empty, rest), ())
         | _ =>
           match generate_expr_ast fuel rest BinOpPrecedenceLevel.lowest_level with
           | none => none
           | some (e, rest1) => some ((Statement.Expr e, rest1), ())) with
      | none => none
      | some ((initial, rest1), _) =>
        match rest1 with
        | .Semicolon :: rest2 =>
          match
            (match rest2 with
             | .Semicolon :: _ => some ((none : Option Expr), rest2)
             | _ =>
               match generate_expr_ast fuel rest2 BinOpPrecedenceLevel.lowest_level with
               | none => none
               | some (e, r) => some (some e, r)) with
          | none => none
          | some (controlling, rest3) =>
            match rest3 with
            | .Semicolon :: rest4 =>
              match
                (match rest4 with
                 | .CloseParen :: _ => some ((none : Option Expr), rest4)
                 | _ =>
                   match generate_expr_ast fuel rest4 BinOpPrecedenceLevel.lowest_level with
                   | none => none
                   | some (e, r) => some (some e, r)) with
              | none => none
              | some (post, rest5) =>
                match rest5 with
                | .CloseParen :: rest6 =>
                  match generate_statement_ast fuel rest6 with
                  | none => none
                  | some (body, rest7) =>
                    some (.For initial controlling post body, rest7)
                | _ => none
            | _ => none
        | _ => none
    | _ => none

/-- Rust `generate_for_loop_decl_expr`, from `src/src/parser/for_loop_parser.rs`
lines 60-81. -/
def generate_for_loop_decl_expr (fuel : Nat) (tokens : List Token) :
    Option (Statement × List Token) :=
  match fuel with
  | 0 => none
  | fuel + 1 =>
    match tokens with
    | .Type t :: .Identifier val :: .AssignmentEquals :: rest =>
      match generate_expr_ast fuel rest BinOpPrecedenceLevel.lowest_level with
      | none => none
      | some (e, rest1) => some (.Declare val (some e) t, rest1)
    | _ => none

end

/-- Rust `generate_function_ast`, from `src/src/parser.rs` lines 66-93: a type
token, the function name, `(`, `)` (each `assert_eq!`), then the compound
body. -/
def generate_function_ast (fuel : Nat) (tokens : List Token) :
    Option (Function × List Token) :=
  match fuel with
  | 0 => none
  | fuel + 1 =>
    match tokens with
    | .Type _ :: .Identifier val :: .OpenParen :: .CloseParen :: rest =>
      match generate_compound_stmt_ast fuel rest with
      | none => none
      | some (body, rest1) => some (⟨val, body⟩, rest1)
    | _ => none

/-- Rust `generate_program_ast`, from `src/src/parser.rs` lines 59-64: one
function, then no tokens may remain. -/
def generate_program_ast (fuel : Nat) (tokens : List Token) : Option Function :=
  match generate_function_ast fuel tokens with
  | none => none
  | some (f, rest) => if rest = [] then some f else none

end Parser

/-! Supporting lemmas and claim theorems. -/

namespace Tac

theorem labelsOf_append (A B : List TacInstr) :
    labelsOf (A ++ B) = labelsOf A ++ labelsOf B := by
  induction A with
  | nil => simp [labelsOf]
  | cons i rest ih => cases i <;> simp [labelsOf, ih]

theorem chooseFinalTemp_label {tgt : Option Identifier} {e1 e2 : Expr}
    {env : CodeEnv} {sug : Option VarSize} {st : St} {t : Identifier} {st1 : St}
    (h : chooseFinalTemp tgt e1 e2 env sug st = some (t, st1)) :
    st1.label = st.label := by
  unfold chooseFinalTemp at h
  split at h
  · simp only [Option.some.injEq, Prod.mk.injEq] at h
    rw [← h.2]
  · split at h
    · simp only [getNewTempName, Option.some.injEq, Prod.mk.injEq] at h
      rw [← h.2]
    · exact absurd h (by simp)

mutual

theorem labelInv_expr (e : Expr) : ∀ (env : CodeEnv) (tgt : Option Identifier)
    (sug : Option VarSize) (st : St) (r : List TacInstr) (v : TacVal) (st' : St),
    generate_expr_tac e env tgt sug st = some ((r, v), st') →
    st.label ≤ st'.label ∧ ∀ lb ∈ labelsOf r, st.label ≤ lb.num := by
  intro env tgt sug st r v st' h
  match e with
  | .Var name =>
    simp only [generate_expr_tac] at h
    split at h
    · exact absurd h (by simp)
    · split at h <;>
      · simp only [Option.some.injEq, Prod.mk.injEq] at h
        obtain ⟨⟨hr, -⟩, hst⟩ := h
        subst hr hst
        exact ⟨le_refl _, by simp [labelsOf]⟩
  | .Int n =>
    rcases tgt with _ | t <;>
    · simp only [generate_expr_tac, Option.some.injEq, Prod.mk.injEq] at h
      obtain ⟨⟨hr, -⟩, hst⟩ := h
      subst hr hst
      exact ⟨le_refl _, by simp [labelsOf]⟩
  | .Assign name e1 =>
    simp only [generate_expr_tac] at h
    split at h
    · exact absurd h (by simp)
    · rename_i id hres
      split at h
      · exact absurd h (by simp)
      · rename_i res v1 st1 hrec
        have IH := labelInv_expr e1 env (some id) (some id.size) st res v1 st1 hrec
        split at h <;>
          simp only [Option.some.injEq, Prod.mk.injEq] at h <;>
          obtain ⟨⟨hr, -⟩, hst⟩ := h <;>
          subst hr hst
        · refine ⟨IH.1, fun lb hlb => ?_⟩
          rw [labelsOf_append] at hlb
          simp only [labelsOf, List.mem_append, List.not_mem_nil, or_false] at hlb
          exact IH.2 lb hlb
        · exact ⟨IH.1, IH.2⟩
  | .UnOp op inner =>
    rcases tgt with _ | t
    · simp only [generate_expr_tac, getNewTempName] at h
      split at h
      · exact absurd h (by simp)
      · split at h
        · exact absurd h (by simp)
        · rename_i szo hsz res v1 st2 hrec
          have IH := labelInv_expr inner env none sug _ res v1 st2 hrec
          simp only [Option.some.injEq, Prod.mk.injEq] at h
          obtain ⟨⟨hr, -⟩, hst⟩ := h
          subst hr hst
          refine ⟨IH.1, fun lb hlb => ?_⟩
          rw [labelsOf_append] at hlb
          simp only [labelsOf, List.mem_append, List.not_mem_nil, or_false] at hlb
          exact IH.2 lb hlb
    · simp only [generate_expr_tac] at h
      split at h
      · exact absurd h (by simp)
      · rename_i res v1 st1 hrec
        have IH := labelInv_expr inner env none sug st res v1 st1 hrec
        simp only [Option.some.injEq, Prod.mk.injEq] at h
        obtain ⟨⟨hr, -⟩, hst⟩ := h
        subst hr hst
        refine ⟨IH.1, fun lb hlb => ?_⟩
        rw [labelsOf_append] at hlb
        simp only [labelsOf, List.mem_append, List.not_mem_nil, or_false] at hlb
        exact IH.2 lb hlb
  | .BinOp op e1 e2 =>
    simp only [generate_expr_tac, generate_binop_tac] at h
    split at h
    · simp only [generate_short_circuiting_tac] at h
      split at h
      · exact absurd h (by simp)
      · rename_i t st1 hct
        have hl1 := chooseFinalTemp_label hct
        split at h
        · split at h
          · exact absurd h (by simp)
          · rename_i r1 v1 stA ha
            split at h
            · exact absurd h (by simp)
            · rename_i r2 v2 stB hb
              have IH1 := labelInv_expr e1 env none none _ r1 v1 stA ha
              have IH2 := labelInv_expr e2 env none none stA r2 v2 stB hb
              simp only [getNewLabelNumber] at IH1
              simp only [Option.some.injEq, Prod.mk.injEq] at h
              obtain ⟨⟨hr, -⟩, hst⟩ := h
              subst hr hst
              refine ⟨by omega, fun lb hlb => ?_⟩
              simp only [labelsOf_append, labelsOf, List.mem_append, List.mem_cons,
                List.not_mem_nil, or_false] at hlb
              rcases hlb with (h1 | h1) | h1 | h1
              · have := IH1.2 lb h1; omega
              · have := IH2.2 lb h1; omega
              · subst h1; simp [getNewLabelNumber]; omega
              · subst h1; simp [getNewLabelNumber]; omega
        · split at h
          · exact absurd h (by simp)
          · rename_i r1 v1 stA ha
            split at h
            · exact absurd h (by simp)
            · rename_i r2 v2 stB hb
              have IH1 := labelInv_expr e1 env none none _ r1 v1 stA ha
              have IH2 := labelInv_expr e2 env none none stA r2 v2 stB hb
              simp only [getNewLabelNumber] at IH1
              simp only [Option.some.injEq, Prod.mk.injEq] at h
              obtain ⟨⟨hr, -⟩, hst⟩ := h
              subst hr hst
              refine ⟨by omega, fun lb hlb => ?_⟩
              simp only [labelsOf_append, labelsOf, List.mem_append, List.mem_cons,
                List.not_mem_nil, or_false] at hlb
              rcases hlb with (h1 | h1) | h1 | h1
              · have := IH1.2 lb h1; omega
              · have := IH2.2 lb h1; omega
              · subst h1; simp [getNewLabelNumber]; omega
              · subst h1; simp [getNewLabelNumber]; omega
        · exact absurd h (by simp)
    · split at h
      · exact absurd h (by simp)
      · rename_i t st1 hct
        have hl1 := chooseFinalTemp_label hct
        split at h
        · exact absurd h (by simp)
        · rename_i r1 v1 stA ha
          split at h
          · exact absurd h (by simp)
          · rename_i r2 v2 stB hb
            have IH1 := labelInv_expr e1 env none sug st1 r1 v1 stA ha
            have IH2 := labelInv_expr e2 env none sug stA r2 v2 stB hb
            simp only [Option.some.injEq, Prod.mk.injEq] at h
            obtain ⟨⟨hr, -⟩, hst⟩ := h
            subst hr hst
            refine ⟨by omega, fun lb hlb => ?_⟩
            simp only [labelsOf_append, labelsOf, List.mem_append, List.not_mem_nil,
              or_false] at hlb
            rcases hlb with h1 | h1
            · have := IH1.2 lb h1; omega
            · have := IH2.2 lb h1; omega
  | .Ternary c e1 e2 =>
    simp only [generate_expr_tac, generate_ternary_tac] at h
    split at h
    · exact absurd h (by simp)
    · rename_i t st1 hct
      have hl1 := chooseFinalTemp_label hct
      split at h
      · exact absurd h (by simp)
      · rename_i rc vc stA hc
        split at h
        · exact absurd h (by simp)
        · rename_i r1 v1 stB hx
          split at h
          · exact absurd h (by simp)
          · rename_i r2 v2 stC hy
            have IHc := labelInv_expr c env none none _ rc vc stA hc
            have IH1 := labelInv_expr e1 env (some t) (some t.size) stA r1 v1 stB hx
            have IH2 := labelInv_expr e2 env (some t) (some t.size) stB r2 v2 stC hy
            simp only [getNewLabelNumber] at IHc
            simp only [Option.some.injEq, Prod.mk.injEq] at h
            obtain ⟨⟨hr, -⟩, hst⟩ := h
            subst hr hst
            refine ⟨by omega, fun lb hlb => ?_⟩
            simp only [labelsOf_append, labelsOf, List.mem_append, List.mem_cons,
              List.not_mem_nil, or_false] at hlb
            rcases hlb with (((h1 | h1) | h1) | h1) | h1
            · have := IHc.2 lb h1; omega
            · have := IH1.2 lb h1; omega
            · subst h1; simp [getNewLabelNumber]; omega
            · have := IH2.2 lb h1; omega
            · subst h1; simp [getNewLabelNumber]; omega
  | .PostfixInc name =>
    simp only [generate_expr_tac, gen_postfix_inc_tac] at h
    split at h
    · exact absurd h (by simp)
    · split at h <;>
      · simp only [getNewTempName, Option.some.injEq, Prod.mk.injEq] at h
        obtain ⟨⟨hr, -⟩, hst⟩ := h
        subst hr hst
        exact ⟨le_refl _, by simp [labelsOf]⟩
  | .PostfixDec name =>
    simp only [generate_expr_tac, gen_postfix_dec_tac] at h
    split at h
    · exact absurd h (by simp)
    · split at h <;>
      · simp only [getNewTempName, Option.some.injEq, Prod.mk.injEq] at h
        obtain ⟨⟨hr, -⟩, hst⟩ := h
        subst hr hst
        exact ⟨le_refl _, by simp [labelsOf]⟩
  | .PrefixInc name =>
    simp only [generate_expr_tac, gen_prefix_inc_tac] at h
    split at h
    · exact absurd h (by simp)
    · split at h <;>
      · simp only [Option.some.injEq, Prod.mk.injEq] at h
        obtain ⟨⟨hr, -⟩, hst⟩ := h
        subst hr hst
        exact ⟨le_refl _, by simp [labelsOf]⟩
  | .PrefixDec name =>
    simp only [generate_expr_tac, gen_prefix_dec_tac] at h
    split at h
    · exact absurd h (by simp)
    · split at h <;>
      · simp only [Option.some.injEq, Prod.mk.injEq] at h
        obtain ⟨⟨hr, -⟩, hst⟩ := h
        subst hr hst
        exact ⟨le_refl _, by simp [labelsOf]⟩
  | .FunctionCall f args =>
    simp only [generate_expr_tac] at h
    rcases tgt with _ | t <;>
    · simp only [gen_function_call_tac, getNewTempName] at h
      split at h
      · exact absurd h (by simp)
      · rename_i instrs vals st2 hargs
        have IH := labelInv_args args env _ instrs vals st2 hargs
        simp only [Option.some.injEq, Prod.mk.injEq] at h
        obtain ⟨⟨hr, -⟩, hst⟩ := h
        subst hr hst
        refine ⟨by simpa using IH.1, fun lb hlb => ?_⟩
        rw [labelsOf_append] at hlb
        simp only [labelsOf, List.mem_append, List.not_mem_nil, or_false] at hlb
        simpa using IH.2 lb hlb

theorem labelInv_args (args : List Expr) : ∀ (env : CodeEnv) (st : St)
    (r : List TacInstr) (vs : List TacVal) (st' : St),
    gen_args_tac args env st = some ((r, vs), st') →
    st.label ≤ st'.label ∧ ∀ lb ∈ labelsOf r, st.label ≤ lb.num := by
  intro env st r vs st' h
  match args with
  | [] =>
    simp only [gen_args_tac, Option.some.injEq, Prod.mk.injEq] at h
    obtain ⟨⟨hr, -⟩, hst⟩ := h
    subst hr hst
    exact ⟨le_refl _, by simp [labelsOf]⟩
  | a :: rest =>
    simp only [gen_args_tac] at h
    split at h
    · exact absurd h (by simp)
    · rename_i r1 v1 st1 ha
      split at h
      · exact absurd h (by simp)
      · rename_i rs vs1 st2 hrest
        have IH1 := labelInv_expr a env none none st r1 v1 st1 ha
        have IH2 := labelInv_args rest env st1 rs vs1 st2 hrest
        simp only [Option.some.injEq, Prod.mk.injEq] at h
        obtain ⟨⟨hr, -⟩, hst⟩ := h
        subst hr hst
        refine ⟨by omega, fun lb hlb => ?_⟩
        rw [labelsOf_append, List.mem_append] at hlb
        rcases hlb with h1 | h1
        · exact IH1.2 lb h1
        · have := IH2.2 lb h1; omega

end

end Tac

namespace Tac

theorem findLabel_of_not_mem {l : Lbl} {B : List TacInstr} (A : List TacInstr)
    (h : l ∉ labelsOf A) :
    findLabel (A ++ B) l = (findLabel B l).map (· + A.length) := by
  induction A with
  | nil => cases hfb : findLabel B l <;> simp [hfb]
  | cons i rest ih =>
    cases i
    case Label lb =>
      simp only [labelsOf, List.mem_cons] at h
      push_neg at h
      obtain ⟨h1, h2⟩ := h
      simp only [List.cons_append, findLabel, List.length_cons, List.append_eq]
      rw [if_neg (fun hh => h1 hh.symm), ih h2]
      cases hfb : findLabel B l <;> simp [Nat.add_assoc]
    all_goals
      simp only [labelsOf] at h
      simp only [List.cons_append, findLabel, List.length_cons, List.append_eq]
      rw [ih h]
      cases hfb : findLabel B l <;> simp [Nat.add_assoc]

theorem and_lowering_shape {e1 e2 : Expr} {env : CodeEnv} {tgt : Option Identifier}
    {sug : Option VarSize} {st : St} {t : Identifier} {st1 : St}
    {r1 r2 : List TacInstr} {v1 v2 : TacVal} {stA stB : St}
    (hct : chooseFinalTemp tgt e1 e2 env sug st = some (t, st1))
    (ha : generate_expr_tac e1 env none none ⟨st1.temp, st1.label + 1⟩ = some ((r1, v1), stA))
    (hb : generate_expr_tac e2 env none none stA = some ((r2, v2), stB)) :
    generate_expr_tac (.BinOp .LogicalAnd e1 e2) env tgt sug st =
      some ((r1 ++ [.JmpZero ⟨"label_and_false_", st1.label⟩ v1] ++ r2 ++
             [.BinOp t v2 (.Lit 0 t.size) .NotEquals,
              .Jmp ⟨"label_and_end_", st1.label⟩,
              .Label ⟨"label_and_false_", st1.label⟩,
              .Copy t (.Lit 0 t.size),
              .Label ⟨"label_and_end_", st1.label⟩], .Var t), stB) := by
  simp [generate_expr_tac, generate_binop_tac, generate_short_circuiting_tac,
        getNewLabelNumber, hct, ha, hb]

theorem or_lowering_shape {e1 e2 : Expr} {env : CodeEnv} {tgt : Option Identifier}
    {sug : Option VarSize} {st : St} {t : Identifier} {st1 : St}
    {r1 r2 : List TacInstr} {v1 v2 : TacVal} {stA stB : St}
    (hct : chooseFinalTemp tgt e1 e2 env sug st = some (t, st1))
    (ha : generate_expr_tac e1 env none none ⟨st1.temp, st1.label + 1⟩ = some ((r1, v1), stA))
    (hb : generate_expr_tac e2 env none none stA = some ((r2, v2), stB)) :
    generate_expr_tac (.BinOp .LogicalOr e1 e2) env tgt sug st =
      some ((r1 ++ [.JmpNotZero ⟨"label_or_true_", st1.label⟩ v1] ++ r2 ++
             [.BinOp t v2 (.Lit 0 t.size) .NotEquals,
              .Jmp ⟨"label_or_end_", st1.label⟩,
              .Label ⟨"label_or_true_", st1.label⟩,
              .Copy t (.Lit 1 t.size),
              .Label ⟨"label_or_end_", st1.label⟩], .Var t), stB) := by
  simp [generate_expr_tac, generate_binop_tac, generate_short_circuiting_tac,
        getNewLabelNumber, hct, ha, hb]

end Tac

namespace Tac

/-- C3: for every `a && b` expression, the lowering emits exactly the
instruction sequence: instructions of `a`; `JmpZero(false_k, a-val)`;
instructions of `b`; `BinOp(t', b-val, Lit(0), NotEquals)`; `Jmp(end_k)`;
`Label(false_k)`; `Copy(t', Lit(0))`; `Label(end_k)` — so every write of the
result temporary in the emitted tail stores 0 or 1 — and for `a || b` the
symmetric sequence with `JmpNotZero(true_k, a-val)` and the true branch
writing `Copy(t', Lit(1))`. -/
theorem C3_shortcircuit_exact_sequence :
    (∀ (e1 e2 : Expr) (env : CodeEnv) (tgt : Option Identifier)
       (sug : Option VarSize) (st st1 : St) (t : Identifier)
       (r1 r2 : List TacInstr) (v1 v2 : TacVal) (stA stB : St),
      chooseFinalTemp tgt e1 e2 env sug st = some (t, st1) →
      generate_expr_tac e1 env none none ⟨st1.temp, st1.label + 1⟩ = some ((r1, v1), stA) →
      generate_expr_tac e2 env none none stA = some ((r2, v2), stB) →
      generate_expr_tac (.BinOp .LogicalAnd e1 e2) env tgt sug st =
        some ((r1 ++ [.JmpZero ⟨"label_and_false_", st1.label⟩ v1] ++ r2 ++
               [.BinOp t v2 (.Lit 0 t.size) .NotEquals,
                .Jmp ⟨"label_and_end_", st1.label⟩,
                .Label ⟨"label_and_false_", st1.label⟩,
                .Copy t (.Lit 0 t.size),
                .Label ⟨"label_and_end_", st1.label⟩], .Var t), stB) ∧
      (∀ σ : Store, evalBinOp .NotEquals (evalVal σ v2) (evalVal σ (.Lit 0 t.size)) = 0 ∨
                    evalBinOp .NotEquals (evalVal σ v2) (evalVal σ (.Lit 0 t.size)) = 1) ∧
      (∀ σ : Store, evalVal σ (.Lit 0 t.size) = 0)) ∧
    (∀ (e1 e2 : Expr) (env : CodeEnv) (tgt : Option Identifier)
       (sug : Option VarSize) (st st1 : St) (t : Identifier)
       (r1 r2 : List TacInstr) (v1 v2 : TacVal) (stA stB : St),
      chooseFinalTemp tgt e1 e2 env sug st = some (t, st1) →
      generate_expr_tac e1 env none none ⟨st1.temp, st1.label + 1⟩ = some ((r1, v1), stA) →
      generate_expr_tac e2 env none none stA = some ((r2, v2), stB) →
      generate_expr_tac (.BinOp .LogicalOr e1 e2) env tgt sug st =
        some ((r1 ++ [.JmpNotZero ⟨"label_or_true_", st1.label⟩ v1] ++ r2 ++
               [.BinOp t v2 (.Lit 0 t.size) .NotEquals,
                .Jmp ⟨"label_or_end_", st1.label⟩,
                .Label ⟨"label_or_true_", st1.label⟩,
                .Copy t (.Lit 1 t.size),
                .Label ⟨"label_or_end_", st1.label⟩], .Var t), stB) ∧
      (∀ σ : Store, evalBinOp .NotEquals (evalVal σ v2) (evalVal σ (.Lit 0 t.size)) = 0 ∨
                    evalBinOp .NotEquals (evalVal σ v2) (evalVal σ (.Lit 0 t.size)) = 1) ∧
      (∀ σ : Store, evalVal σ (.Lit 1 t.size) = 1)) := by
  constructor
  · intro e1 e2 env tgt sug st st1 t r1 r2 v1 v2 stA stB hct ha hb
    refine ⟨and_lowering_shape hct ha hb, fun σ => ?_, fun σ => rfl⟩
    simp only [evalBinOp, evalVal]
    split <;> simp
  · intro e1 e2 env tgt sug st st1 t r1 r2 v1 v2 stA stB hct ha hb
    refine ⟨or_lowering_shape hct ha hb, fun σ => ?_, fun σ => rfl⟩
    simp only [evalBinOp, evalVal]
    split <;> simp

/-- Witness for C3 at `1 && 2` and `1 || 2` from the fresh counter state:
the hypotheses are discharged by computation on concrete inputs. -/
theorem C3_shortcircuit_exact_sequence_witness :
    (generate_expr_tac (.BinOp .LogicalAnd (.Int 1) (.Int 2)) [[]] none none ⟨0, 0⟩ =
      some (([.JmpZero ⟨"label_and_false_", 0⟩ (.Lit 1 .Dword),
              .BinOp ⟨0, .Dword⟩ (.Lit 2 .Dword) (.Lit 0 .Dword) .NotEquals,
              .Jmp ⟨"label_and_end_", 0⟩,
              .Label ⟨"label_and_false_", 0⟩,
              .Copy ⟨0, .Dword⟩ (.Lit 0 .Dword),
              .Label ⟨"label_and_end_", 0⟩], .Var ⟨0, .Dword⟩), ⟨1, 1⟩) ∧
     (∀ σ : Store, evalBinOp .NotEquals (evalVal σ (.Lit 2 .Dword))
        (evalVal σ (.Lit (0 : I64) .Dword)) = 0 ∨
      evalBinOp .NotEquals (evalVal σ (.Lit 2 .Dword))
        (evalVal σ (.Lit (0 : I64) .Dword)) = 1) ∧
     (∀ σ : Store, evalVal σ (.Lit (0 : I64) .Dword) = 0)) ∧
    (generate_expr_tac (.BinOp .LogicalOr (.Int 1) (.Int 2)) [[]] none none ⟨0, 0⟩ =
      some (([.JmpNotZero ⟨"label_or_true_", 0⟩ (.Lit 1 .Dword),
              .BinOp ⟨0, .Dword⟩ (.Lit 2 .Dword) (.Lit 0 .Dword) .NotEquals,
              .Jmp ⟨"label_or_end_", 0⟩,
              .Label ⟨"label_or_true_", 0⟩,
              .Copy ⟨0, .Dword⟩ (.Lit 1 .Dword),
              .Label ⟨"label_or_end_", 0⟩], .Var ⟨0, .Dword⟩), ⟨1, 1⟩) ∧
     (∀ σ : Store, evalBinOp .NotEquals (evalVal σ (.Lit 2 .Dword))
        (evalVal σ (.Lit (0 : I64) .Dword)) = 0 ∨
      evalBinOp .NotEquals (evalVal σ (.Lit 2 .Dword))
        (evalVal σ (.Lit (0 : I64) .Dword)) = 1) ∧
     (∀ σ : Store, evalVal σ (.Lit (1 : I64) .Dword) = 1)) := by
  constructor
  · have := C3_shortcircuit_exact_sequence.1 (.Int 1) (.Int 2) [[]] none none
      ⟨0, 0⟩ ⟨1, 0⟩ ⟨0, .Dword⟩ [] [] (.Lit 1 .Dword) (.Lit 2 .Dword) ⟨1, 1⟩ ⟨1, 1⟩
      (by simp [chooseFinalTemp, get_expr_size, get_bigger_size, getNewTempName, VarSize.default])
      (by simp [generate_expr_tac, VarSize.default])
      (by simp [generate_expr_tac, VarSize.default])
    simpa using this
  · have := C3_shortcircuit_exact_sequence.2 (.Int 1) (.Int 2) [[]] none none
      ⟨0, 0⟩ ⟨1, 0⟩ ⟨0, .Dword⟩ [] [] (.Lit 1 .Dword) (.Lit 2 .Dword) ⟨1, 1⟩ ⟨1, 1⟩
      (by simp [chooseFinalTemp, get_expr_size, get_bigger_size, getNewTempName, VarSize.default])
      (by simp [generate_expr_tac, VarSize.default])
      (by simp [generate_expr_tac, VarSize.default])
    simpa using this

end Tac

namespace Tac

theorem getElem?_append_add {α : Type} (l1 l2 : List α) (k : Nat) :
    (l1 ++ l2)[l1.length + k]? = l2[k]? := by
  rw [List.getElem?_append_right (Nat.le_add_right _ _)]
  simp

theorem getElem?_append_self {α : Type} (l1 : List α) (x : α) (l2 : List α) :
    (l1 ++ (x :: l2))[l1.length]? = some x := by
  rw [List.getElem?_append_right le_rfl]
  simp

theorem sc_block_core (f e : Lbl) (r1 r2 : List TacInstr) (j bop : TacInstr)
    (t : Identifier) (cv : TacVal) (σ : Store) (L : List TacInstr)
    (hL : L = r1 ++ [j] ++ r2 ++ [bop, .Jmp e, .Label f, .Copy t cv, .Label e])
    (hf1 : f ∉ labelsOf r1) (hf2 : f ∉ labelsOf r2)
    (hjlab : labelsOf [j] = []) (hboplab : labelsOf [bop] = [])
    (hstep0 : step L (r1.length, σ) = (findLabel L f).map (fun k => (k, σ))) :
    findLabel L f = some (r1.length + r2.length + 3) ∧
    stepN L 1 (r1.length, σ) = some (r1.length + r2.length + 3, σ) ∧
    stepN L 2 (r1.length, σ) = some (r1.length + r2.length + 4, σ) ∧
    stepN L 3 (r1.length, σ) = some (r1.length + r2.length + 5, σ.update t (evalVal σ cv)) ∧
    stepN L 4 (r1.length, σ) = some (r1.length + r2.length + 6, σ.update t (evalVal σ cv)) ∧
    (∀ k p σ', 1 ≤ k → k ≤ 4 → stepN L k (r1.length, σ) = some (p, σ') →
      r1.length + r2.length + 2 < p) := by
  have hfind : findLabel L f = some (r1.length + r2.length + 3) := by
    have hbop5 : findLabel [bop, .Jmp e, .Label f, .Copy t cv, .Label e] f = some 2 := by
      have hsplit : [bop, TacInstr.Jmp e, TacInstr.Label f, TacInstr.Copy t cv,
          TacInstr.Label e] = [bop] ++ [.Jmp e, .Label f, .Copy t cv, .Label e] := rfl
      rw [hsplit, findLabel_of_not_mem [bop] (by simp [hboplab])]
      simp [findLabel]
    rw [hL]
    simp only [List.append_assoc]
    rw [findLabel_of_not_mem r1 hf1, findLabel_of_not_mem [j] (by simp [hjlab]),
        findLabel_of_not_mem r2 hf2, hbop5]
    simp only [Option.map_some', List.length_singleton, Option.some.injEq]
    omega
  have hget3 : L[r1.length + r2.length + 3]? = some (.Label f) := by
    have h1 : r1.length + r2.length + 3 = r1.length + (r2.length + 2 + 1) := by omega
    rw [hL]
    simp only [List.append_assoc]
    rw [h1, getElem?_append_add, List.singleton_append, List.getElem?_cons_succ,
        getElem?_append_add]
    rfl
  have hget4 : L[r1.length + r2.length + 4]? = some (.Copy t cv) := by
    have h1 : r1.length + r2.length + 4 = r1.length + (r2.length + 3 + 1) := by omega
    rw [hL]
    simp only [List.append_assoc]
    rw [h1, getElem?_append_add, List.singleton_append, List.getElem?_cons_succ,
        getElem?_append_add]
    rfl
  have hget5 : L[r1.length + r2.length + 5]? = some (.Label e) := by
    have h1 : r1.length + r2.length + 5 = r1.length + (r2.length + 4 + 1) := by omega
    rw [hL]
    simp only [List.append_assoc]
    rw [h1, getElem?_append_add, List.singleton_append, List.getElem?_cons_succ,
        getElem?_append_add]
    rfl
  have hs1 : step L (r1.length, σ) = some (r1.length + r2.length + 3, σ) := by
    rw [hstep0, hfind]
    rfl
  have hs2 : step L (r1.length + r2.length + 3, σ) = some (r1.length + r2.length + 4, σ) := by
    simp only [step, hget3]
  have hs3 : step L (r1.length + r2.length + 4, σ) =
      some (r1.length + r2.length + 5, σ.update t (evalVal σ cv)) := by
    simp only [step, hget4]
  have hs4 : step L (r1.length + r2.length + 5, σ.update t (evalVal σ cv)) =
      some (r1.length + r2.length + 6, σ.update t (evalVal σ cv)) := by
    simp only [step, hget5]
  have hn1 : stepN L 1 (r1.length, σ) = some (r1.length + r2.length + 3, σ) := by
    simp only [stepN, hs1]
  have hn2 : stepN L 2 (r1.length, σ) = some (r1.length + r2.length + 4, σ) := by
    simp only [stepN, hs1, hs2]
  have hn3 : stepN L 3 (r1.length, σ) =
      some (r1.length + r2.length + 5, σ.update t (evalVal σ cv)) := by
    simp only [stepN, hs1, hs2, hs3]
  have hn4 : stepN L 4 (r1.length, σ) =
      some (r1.length + r2.length + 6, σ.update t (evalVal σ cv)) := by
    simp only [stepN, hs1, hs2, hs3, hs4]
  refine ⟨hfind, hn1, hn2, hn3, hn4, fun k p σ' h1 h4 heq => ?_⟩
  interval_cases k
  · rw [hn1] at heq
    simp only [Option.some.injEq, Prod.mk.injEq] at heq
    omega
  · rw [hn2] at heq
    simp only [Option.some.injEq, Prod.mk.injEq] at heq
    omega
  · rw [hn3] at heq
    simp only [Option.some.injEq, Prod.mk.injEq] at heq
    omega
  · rw [hn4] at heq
    simp only [Option.some.injEq, Prod.mk.injEq] at heq
    omega

end Tac

namespace Tac

/-- C2: short-circuit evaluation. In the TAC generated for `a && b`, whenever
the value computed for `a` is 0, the `JmpZero` transfers control directly past
every instruction generated from `b` (to the `Label(false_k)` at index
`|a| + |b| + 3`), and every subsequent program counter within the block stays
strictly beyond the `b` range `|a|+1 … |a|+|b|`; symmetrically for `a || b`
whenever `a` is non-zero. -/
theorem C2_shortcircuit_unreachable :
    (∀ (e1 e2 : Expr) (env : CodeEnv) (tgt : Option Identifier)
       (sug : Option VarSize) (st st1 : St) (t : Identifier)
       (r1 r2 : List TacInstr) (v1 v2 : TacVal) (stA stB : St) (σ : Store)
       (L : List TacInstr),
      chooseFinalTemp tgt e1 e2 env sug st = some (t, st1) →
      generate_expr_tac e1 env none none ⟨st1.temp, st1.label + 1⟩ = some ((r1, v1), stA) →
      generate_expr_tac e2 env none none stA = some ((r2, v2), stB) →
      L = r1 ++ [.JmpZero ⟨"label_and_false_", st1.label⟩ v1] ++ r2 ++
          [.BinOp t v2 (.Lit 0 t.size) .NotEquals,
           .Jmp ⟨"label_and_end_", st1.label⟩,
           .Label ⟨"label_and_false_", st1.label⟩,
           .Copy t (.Lit 0 t.size),
           .Label ⟨"label_and_end_", st1.label⟩] →
      evalVal σ v1 = 0 →
      generate_expr_tac (.BinOp .LogicalAnd e1 e2) env tgt sug st = some ((L, .Var t), stB) ∧
      stepN L 1 (r1.length, σ) = some (r1.length + r2.length + 3, σ) ∧
      stepN L 2 (r1.length, σ) = some (r1.length + r2.length + 4, σ) ∧
      stepN L 3 (r1.length, σ) = some (r1.length + r2.length + 5, σ.update t 0) ∧
      stepN L 4 (r1.length, σ) = some (r1.length + r2.length + 6, σ.update t 0) ∧
      (∀ k p σ', 1 ≤ k → k ≤ 4 → stepN L k (r1.length, σ) = some (p, σ') →
        r1.length + r2.length + 2 < p)) ∧
    (∀ (e1 e2 : Expr) (env : CodeEnv) (tgt : Option Identifier)
       (sug : Option VarSize) (st st1 : St) (t : Identifier)
       (r1 r2 : List TacInstr) (v1 v2 : TacVal) (stA stB : St) (σ : Store)
       (L : List TacInstr),
      chooseFinalTemp tgt e1 e2 env sug st = some (t, st1) →
      generate_expr_tac e1 env none none ⟨st1.temp, st1.label + 1⟩ = some ((r1, v1), stA) →
      generate_expr_tac e2 env none none stA = some ((r2, v2), stB) →
      L = r1 ++ [.JmpNotZero ⟨"label_or_true_", st1.label⟩ v1] ++ r2 ++
          [.BinOp t v2 (.Lit 0 t.size) .NotEquals,
           .Jmp ⟨"label_or_end_", st1.label⟩,
           .Label ⟨"label_or_true_", st1.label⟩,
           .Copy t (.Lit 1 t.size),
           .Label ⟨"label_or_end_", st1.label⟩] →
      evalVal σ v1 ≠ 0 →
      generate_expr_tac (.BinOp .LogicalOr e1 e2) env tgt sug st = some ((L, .Var t), stB) ∧
      stepN L 1 (r1.length, σ) = some (r1.length + r2.length + 3, σ) ∧
      stepN L 2 (r1.length, σ) = some (r1.length + r2.length + 4, σ) ∧
      stepN L 3 (r1.length, σ) = some (r1.length + r2.length + 5, σ.update t 1) ∧
      stepN L 4 (r1.length, σ) = some (r1.length + r2.length + 6, σ.update t 1) ∧
      (∀ k p σ', 1 ≤ k → k ≤ 4 → stepN L k (r1.length, σ) = some (p, σ') →
        r1.length + r2.length + 2 < p)) := by
  constructor
  · intro e1 e2 env tgt sug st st1 t r1 r2 v1 v2 stA stB σ L hct ha hb hL hz
    have hshape := and_lowering_shape hct ha hb
    have hInv1 := labelInv_expr e1 env none none ⟨st1.temp, st1.label + 1⟩ r1 v1 stA ha
    have hInv2 := labelInv_expr e2 env none none stA r2 v2 stB hb
    have hf1 : Lbl.mk "label_and_false_" st1.label ∉ labelsOf r1 := by
      intro hm
      simpa using hInv1.2 _ hm
    have hf2 : Lbl.mk "label_and_false_" st1.label ∉ labelsOf r2 := by
      intro hm
      have h1 := hInv2.2 _ hm
      have h2 := hInv1.1
      simp only [Lbl.mk.injEq] at h1 h2 ⊢
      omega
    have hget0 : L[r1.length]? = some (.JmpZero ⟨"label_and_false_", st1.label⟩ v1) := by
      rw [hL]
      simp only [List.append_assoc, List.singleton_append]
      exact getElem?_append_self r1 _ _
    have hstep0 : step L (r1.length, σ) =
        (findLabel L (Lbl.mk "label_and_false_" st1.label)).map (fun k => (k, σ)) := by
      simp only [step, hget0]
      rw [if_pos hz]
    have hcore := sc_block_core (Lbl.mk "label_and_false_" st1.label)
      (Lbl.mk "label_and_end_" st1.label) r1 r2
      (.JmpZero ⟨"label_and_false_", st1.label⟩ v1)
      (.BinOp t v2 (.Lit 0 t.size) .NotEquals) t (.Lit 0 t.size) σ L hL hf1 hf2
      (by simp [labelsOf]) (by simp [labelsOf]) hstep0
    refine ⟨by rw [hL]; exact hshape, hcore.2.1, hcore.2.2.1, ?_, ?_, hcore.2.2.2.2.2⟩
    · simpa [evalVal] using hcore.2.2.2.1
    · simpa [evalVal] using hcore.2.2.2.2.1
  · intro e1 e2 env tgt sug st st1 t r1 r2 v1 v2 stA stB σ L hct ha hb hL hz
    have hshape := or_lowering_shape hct ha hb
    have hInv1 := labelInv_expr e1 env none none ⟨st1.temp, st1.label + 1⟩ r1 v1 stA ha
    have hInv2 := labelInv_expr e2 env none none stA r2 v2 stB hb
    have hf1 : Lbl.mk "label_or_true_" st1.label ∉ labelsOf r1 := by
      intro hm
      simpa using hInv1.2 _ hm
    have hf2 : Lbl.mk "label_or_true_" st1.label ∉ labelsOf r2 := by
      intro hm
      have h1 := hInv2.2 _ hm
      have h2 := hInv1.1
      simp only [Lbl.mk.injEq] at h1 h2 ⊢
      omega
    have hget0 : L[r1.length]? = some (.JmpNotZero ⟨"label_or_true_", st1.label⟩ v1) := by
      rw [hL]
      simp only [List.append_assoc, List.singleton_append]
      exact getElem?_append_self r1 _ _
    have hstep0 : step L (r1.length, σ) =
        (findLabel L (Lbl.mk "label_or_true_" st1.label)).map (fun k => (k, σ)) := by
      simp only [step, hget0]
      rw [if_neg hz]
    have hcore := sc_block_core (Lbl.mk "label_or_true_" st1.label)
      (Lbl.mk "label_or_end_" st1.label) r1 r2
      (.JmpNotZero ⟨"label_or_true_", st1.label⟩ v1)
      (.BinOp t v2 (.Lit 0 t.size) .NotEquals) t (.Lit 1 t.size) σ L hL hf1 hf2
      (by simp [labelsOf]) (by simp [labelsOf]) hstep0
    refine ⟨by rw [hL]; exact hshape, hcore.2.1, hcore.2.2.1, ?_, ?_, hcore.2.2.2.2.2⟩
    · simpa [evalVal] using hcore.2.2.2.1
    · simpa [evalVal] using hcore.2.2.2.2.1

end Tac

namespace Tac

/-- Witness for C2 at `0 && 7` and `1 || 7` with the all-zero store: after the
conditional jump at index 0, the next program counter is 3, past the (empty)
right-operand region. -/
theorem C2_shortcircuit_unreachable_witness :
    stepN [.JmpZero ⟨"label_and_false_", 0⟩ (.Lit 0 .Dword),
           .BinOp ⟨0, .Dword⟩ (.Lit 7 .Dword) (.Lit 0 .Dword) .NotEquals,
           .Jmp ⟨"label_and_end_", 0⟩,
           .Label ⟨"label_and_false_", 0⟩,
           .Copy ⟨0, .Dword⟩ (.Lit 0 .Dword),
           .Label ⟨"label_and_end_", 0⟩] 1 (0, fun _ => (0 : I64)) =
      some (3, fun _ => (0 : I64)) ∧
    stepN [.JmpNotZero ⟨"label_or_true_", 0⟩ (.Lit 1 .Dword),
           .BinOp ⟨0, .Dword⟩ (.Lit 7 .Dword) (.Lit 0 .Dword) .NotEquals,
           .Jmp ⟨"label_or_end_", 0⟩,
           .Label ⟨"label_or_true_", 0⟩,
           .Copy ⟨0, .Dword⟩ (.Lit 1 .Dword),
           .Label ⟨"label_or_end_", 0⟩] 1 (0, fun _ => (0 : I64)) =
      some (3, fun _ => (0 : I64)) :=
  ⟨(C2_shortcircuit_unreachable.1 (.Int 0) (.Int 7) [[]] none none
      ⟨0, 0⟩ ⟨1, 0⟩ ⟨0, .Dword⟩ [] [] (.Lit 0 .Dword) (.Lit 7 .Dword) ⟨1, 1⟩ ⟨1, 1⟩
      (fun _ => (0 : I64)) _
      (by simp [chooseFinalTemp, get_expr_size, get_bigger_size, getNewTempName,
        VarSize.default])
      (by simp [generate_expr_tac, VarSize.default])
      (by simp [generate_expr_tac, VarSize.default])
      rfl
      rfl).2.1,
   (C2_shortcircuit_unreachable.2 (.Int 1) (.Int 7) [[]] none none
      ⟨0, 0⟩ ⟨1, 0⟩ ⟨0, .Dword⟩ [] [] (.Lit 1 .Dword) (.Lit 7 .Dword) ⟨1, 1⟩ ⟨1, 1⟩
      (fun _ => (0 : I64)) _
      (by simp [chooseFinalTemp, get_expr_size, get_bigger_size, getNewTempName,
        VarSize.default])
      (by simp [generate_expr_tac, VarSize.default])
      (by simp [generate_expr_tac, VarSize.default])
      rfl
      (by simp [evalVal])).2.1⟩

end Tac

namespace Tac

/-- C5: for every binary operation other than the logical connectives, with
no supplied target, the lowering emits the instructions of `a`, then those of
`b`, then one final `BinOp(t', a-val, b-val, op)` into a fresh temporary
whose size is `get_bigger_size` of the children's sizes, falling back to the
suggested size, else the default; and `get_bigger_size` is exactly the max
under `Quad > Dword > Word > Byte` with unknown sizes deferring to the other
side. -/
theorem C5_binop_lowering :
    (∀ (op : BinOp) (e1 e2 : Expr) (env : CodeEnv) (sug : Option VarSize)
       (st st1 : St) (t : Identifier) (r1 r2 : List TacInstr) (v1 v2 : TacVal)
       (stA stB : St),
      op ≠ .LogicalAnd → op ≠ .LogicalOr →
      chooseFinalTemp none e1 e2 env sug st = some (t, st1) →
      generate_expr_tac e1 env none sug st1 = some ((r1, v1), stA) →
      generate_expr_tac e2 env none sug stA = some ((r2, v2), stB) →
      generate_expr_tac (.BinOp op e1 e2) env none sug st =
        some ((r1 ++ r2 ++ [.BinOp t v1 v2 op], .Var t), stB) ∧
      (∃ s1 s2, get_expr_size e1 env = some s1 ∧ get_expr_size e2 env = some s2 ∧
        t = ⟨st.temp, (get_bigger_size s1 s2).getD (sug.getD VarSize.default)⟩)) ∧
    (∀ s1 s2, get_bigger_size s1 s2 = maxSizeSpec s1 s2) := by
  constructor
  · intro op e1 e2 env sug st st1 t r1 r2 v1 v2 stA stB hop1 hop2 hct ha hb
    constructor
    · simp only [generate_expr_tac, generate_binop_tac]
      rw [if_neg (by simp [hop1, hop2])]
      simp only [hct, ha, hb]
    · simp only [chooseFinalTemp] at hct
      rcases hs1 : get_expr_size e1 env with _ | s1
      · rw [hs1] at hct
        exact absurd hct (by simp)
      · rcases hs2 : get_expr_size e2 env with _ | s2
        · rw [hs1, hs2] at hct
          exact absurd hct (by simp)
        · rw [hs1, hs2] at hct
          simp only [getNewTempName, Option.some.injEq, Prod.mk.injEq] at hct
          exact ⟨s1, s2, rfl, rfl, hct.1.symm⟩
  · intro s1 s2
    rcases s1 with _ | v1 <;> rcases s2 with _ | v2
    · decide
    · cases v2 <;> decide
    · cases v1 <;> decide
    · cases v1 <;> cases v2 <;> decide

/-- Witness for C5 at `2 + 3` from the fresh counter state. -/
theorem C5_binop_lowering_witness :
    generate_expr_tac (.BinOp .Plus (.Int 2) (.Int 3)) [[]] none none ⟨0, 0⟩ =
      some (([.BinOp ⟨0, .Dword⟩ (.Lit 2 .Dword) (.Lit 3 .Dword) .Plus],
             .Var ⟨0, .Dword⟩), ⟨1, 0⟩) ∧
    (∃ s1 s2, get_expr_size (.Int 2) [[]] = some s1 ∧
      get_expr_size (.Int 3) [[]] = some s2 ∧
      (Identifier.mk 0 .Dword) =
        ⟨0, (get_bigger_size s1 s2).getD ((none : Option VarSize).getD VarSize.default)⟩) := by
  have := (C5_binop_lowering.1 .Plus (.Int 2) (.Int 3) [[]] none
    ⟨0, 0⟩ ⟨1, 0⟩ ⟨0, .Dword⟩ [] [] (.Lit 2 .Dword) (.Lit 3 .Dword) ⟨1, 0⟩ ⟨1, 0⟩
    (by simp) (by simp)
    (by simp [chooseFinalTemp, get_expr_size, get_bigger_size, getNewTempName, VarSize.default])
    (by simp [generate_expr_tac, VarSize.default])
    (by simp [generate_expr_tac, VarSize.default]))
  simpa using this

theorem lastWrittenId_append (A B : List TacInstr) :
    lastWrittenId (A ++ B) =
      match lastWrittenId B with
      | some w => some w
      | none => lastWrittenId A := by
  induction A with
  | nil => cases hB : lastWrittenId B <;> simp [lastWrittenId, hB]
  | cons i rest ih =>
    simp only [List.cons_append, lastWrittenId, List.append_eq]
    rw [ih]
    cases hB : lastWrittenId B <;> cases hR : lastWrittenId rest <;> simp [hB, hR]

/-- C6: for every expression, environment, and supplied target temporary `t`,
a successful lowering returns the result value `Var(t)`, and the last
instruction of the returned sequence that writes any temporary writes `t`. -/
theorem C6_target_contract (e : Expr) : ∀ (env : CodeEnv) (t : Identifier)
    (sug : Option VarSize) (st : St) (r : List TacInstr) (v : TacVal) (st' : St),
    generate_expr_tac e env (some t) sug st = some ((r, v), st') →
    v = .Var t ∧ lastWrittenId r = some t := by
  intro env t sug st r v st' h
  match e with
  | .Var name =>
    simp only [generate_expr_tac] at h
    split at h
    · exact absurd h (by simp)
    · simp only [Option.some.injEq, Prod.mk.injEq] at h
      obtain ⟨⟨hr, hv⟩, -⟩ := h
      subst hr
      exact ⟨hv.symm, by simp [lastWrittenId, TacInstr.get_written_identifier]⟩
  | .Int n =>
    simp only [generate_expr_tac, Option.some.injEq, Prod.mk.injEq] at h
    obtain ⟨⟨hr, hv⟩, -⟩ := h
    subst hr
    exact ⟨hv.symm, by simp [lastWrittenId, TacInstr.get_written_identifier]⟩
  | .Assign name e1 =>
    simp only [generate_expr_tac] at h
    split at h
    · exact absurd h (by simp)
    · split at h
      · exact absurd h (by simp)
      · simp only [Option.some.injEq, Prod.mk.injEq] at h
        obtain ⟨⟨hr, hv⟩, -⟩ := h
        subst hr
        refine ⟨hv.symm, ?_⟩
        rw [lastWrittenId_append]
        simp [lastWrittenId, TacInstr.get_written_identifier]
  | .UnOp op inner =>
    simp only [generate_expr_tac] at h
    split at h
    · exact absurd h (by simp)
    · simp only [Option.some.injEq, Prod.mk.injEq] at h
      obtain ⟨⟨hr, hv⟩, -⟩ := h
      subst hr
      refine ⟨hv.symm, ?_⟩
      rw [lastWrittenId_append]
      simp [lastWrittenId, TacInstr.get_written_identifier]
  | .BinOp op e1 e2 =>
    simp only [generate_expr_tac, generate_binop_tac] at h
    split at h
    · simp only [generate_short_circuiting_tac, chooseFinalTemp] at h
      split at h
      · split at h
        · exact absurd h (by simp)
        · split at h
          · exact absurd h (by simp)
          · simp only [Option.some.injEq, Prod.mk.injEq] at h
            obtain ⟨⟨hr, hv⟩, -⟩ := h
            subst hr
            refine ⟨hv.symm, ?_⟩
            rw [lastWrittenId_append]
            simp [lastWrittenId, TacInstr.get_written_identifier]
      · split at h
        · exact absurd h (by simp)
        · split at h
          · exact absurd h (by simp)
          · simp only [Option.some.injEq, Prod.mk.injEq] at h
            obtain ⟨⟨hr, hv⟩, -⟩ := h
            subst hr
            refine ⟨hv.symm, ?_⟩
            rw [lastWrittenId_append]
            simp [lastWrittenId, TacInstr.get_written_identifier]
      · exact absurd h (by simp)
    · simp only [chooseFinalTemp] at h
      split at h
      · exact absurd h (by simp)
      · split at h
        · exact absurd h (by simp)
        · simp only [Option.some.injEq, Prod.mk.injEq] at h
          obtain ⟨⟨hr, hv⟩, -⟩ := h
          subst hr
          refine ⟨hv.symm, ?_⟩
          rw [lastWrittenId_append]
          simp [lastWrittenId, TacInstr.get_written_identifier]
  | .Ternary c e1 e2 =>
    simp only [generate_expr_tac, generate_ternary_tac, chooseFinalTemp] at h
    split at h
    · exact absurd h (by simp)
    · rename_i rc vc stA hc
      split at h
      · exact absurd h (by simp)
      · rename_i r1 v1 stB h1
        split at h
        · exact absurd h (by simp)
        · rename_i r2 v2 stC h2
          have IH := C6_target_contract e2 env t t.size stB r2 v2 stC h2
          simp only [Option.some.injEq, Prod.mk.injEq] at h
          obtain ⟨⟨hr, hv⟩, -⟩ := h
          subst hr
          refine ⟨hv.symm, ?_⟩
          rw [lastWrittenId_append]
          simp only [lastWrittenId, TacInstr.get_written_identifier]
          rw [lastWrittenId_append]
          simp only [lastWrittenId, TacInstr.get_written_identifier, IH.2]
  | .PostfixInc name =>
    simp only [generate_expr_tac, gen_postfix_inc_tac] at h
    split at h
    · exact absurd h (by simp)
    · simp only [Option.some.injEq, Prod.mk.injEq] at h
      obtain ⟨⟨hr, hv⟩, -⟩ := h
      subst hr
      exact ⟨hv.symm, by simp [lastWrittenId, TacInstr.get_written_identifier]⟩
  | .PostfixDec name =>
    simp only [generate_expr_tac, gen_postfix_dec_tac] at h
    split at h
    · exact absurd h (by simp)
    · simp only [Option.some.injEq, Prod.mk.injEq] at h
      obtain ⟨⟨hr, hv⟩, -⟩ := h
      subst hr
      exact ⟨hv.symm, by simp [lastWrittenId, TacInstr.get_written_identifier]⟩
  | .PrefixInc name =>
    simp only [generate_expr_tac, gen_prefix_inc_tac] at h
    split at h
    · exact absurd h (by simp)
    · simp only [Option.some.injEq, Prod.mk.injEq] at h
      obtain ⟨⟨hr, hv⟩, -⟩ := h
      subst hr
      exact ⟨hv.symm, by simp [lastWrittenId, TacInstr.get_written_identifier]⟩
  | .PrefixDec name =>
    simp only [generate_expr_tac, gen_prefix_dec_tac] at h
    split at h
    · exact absurd h (by simp)
    · simp only [Option.some.injEq, Prod.mk.injEq] at h
      obtain ⟨⟨hr, hv⟩, -⟩ := h
      subst hr
      exact ⟨hv.symm, by simp [lastWrittenId, TacInstr.get_written_identifier]⟩
  | .FunctionCall f args =>
    simp only [generate_expr_tac, gen_function_call_tac] at h
    split at h
    · exact absurd h (by simp)
    · simp only [Option.some.injEq, Prod.mk.injEq] at h
      obtain ⟨⟨hr, hv⟩, -⟩ := h
      subst hr
      refine ⟨hv.symm, ?_⟩
      rw [lastWrittenId_append]
      simp [lastWrittenId, TacInstr.get_written_identifier]

/-- Witness for C6 at `5` lowered into the target temporary `(9, Byte)`. -/
theorem C6_target_contract_witness :
    (TacVal.Var ⟨9, .Byte⟩) = .Var ⟨9, .Byte⟩ ∧
    lastWrittenId [.Copy ⟨9, .Byte⟩ (.Lit 5 .Byte)] = some ⟨9, .Byte⟩ :=
  C6_target_contract (.Int 5) [[]] ⟨9, .Byte⟩ none ⟨0, 0⟩
    [.Copy ⟨9, .Byte⟩ (.Lit 5 .Byte)] (.Var ⟨9, .Byte⟩) ⟨0, 0⟩
    (by simp [generate_expr_tac])

end Tac

namespace Codegen

open Tac

theorem collect_some_eq (l : List TacInstr) : ∀ (seen out : List Identifier),
    collectTemporaries l seen = some out → out = seen ++ writeEvents l := by
  induction l with
  | nil =>
    intro seen out h
    simp only [collectTemporaries, Option.some.injEq] at h
    simp [writeEvents, ← h]
  | cons x rest ih =>
    intro seen out h
    simp only [collectTemporaries] at h
    split at h
    · cases hw0 : x.get_written_identifier with
      | none =>
        rw [hw0] at h
        have := ih _ _ h
        simpa [writeEvents, hw0] using this
      | some w =>
        rw [hw0] at h
        have := ih _ _ h
        simp only [writeEvents, List.filterMap_cons, hw0] at *
        simp [this]
    · exact absurd h (by simp)

theorem collect_isSome_iff (l : List TacInstr) : ∀ (seen : List Identifier),
    (collectTemporaries l seen).isSome = true ↔
    ∀ i id, id ∈ readsAt l i → id ∈ seen ∨ ∃ j, j < i ∧ writtenAt l j = some id := by
  induction l with
  | nil =>
    intro seen
    simp [collectTemporaries, readsAt]
  | cons x rest ih =>
    intro seen
    by_cases hr : x.get_read_identifiers.all (fun id => seen.contains id)
    · rw [collectTemporaries, if_pos hr]
      cases hw0 : x.get_written_identifier with
      | none =>
        have hstep : collectTemporaries rest
            (match (none : Option Identifier) with
             | some id => seen ++ [id]
             | none => seen) = collectTemporaries rest seen := rfl
        rw [hstep, ih seen]
        constructor
        · intro H i id hread
          match i with
          | 0 =>
            have hm : id ∈ x.get_read_identifiers := by simpa [readsAt] using hread
            have := List.all_eq_true.mp hr _ hm
            exact Or.inl (by simpa using this)
          | Nat.succ i =>
            have hread' : id ∈ readsAt rest i := by simpa [readsAt] using hread
            rcases H i id hread' with hmem | ⟨j, hj, hw⟩
            · exact Or.inl hmem
            · exact Or.inr ⟨j + 1, by omega, by simpa [writtenAt] using hw⟩
        · intro H i id hread
          rcases H (i + 1) id (by simpa [readsAt] using hread) with hmem | ⟨j, hj, hw⟩
          · exact Or.inl hmem
          · match j with
            | 0 =>
              simp [writtenAt, hw0] at hw
            | Nat.succ j =>
              exact Or.inr ⟨j, by omega, by simpa [writtenAt] using hw⟩
      | some w =>
        have hstep : collectTemporaries rest
            (match (some w : Option Identifier) with
             | some id => seen ++ [id]
             | none => seen) = collectTemporaries rest (seen ++ [w]) := rfl
        rw [hstep, ih (seen ++ [w])]
        constructor
        · intro H i id hread
          match i with
          | 0 =>
            have hm : id ∈ x.get_read_identifiers := by simpa [readsAt] using hread
            have := List.all_eq_true.mp hr _ hm
            exact Or.inl (by simpa using this)
          | Nat.succ i =>
            have hread' : id ∈ readsAt rest i := by simpa [readsAt] using hread
            rcases H i id hread' with hmem | ⟨j, hj, hw⟩
            · rcases List.mem_append.mp hmem with hmem | hmem
              · exact Or.inl hmem
              · have : id = w := by simpa using hmem
                subst this
                exact Or.inr ⟨0, by omega, by simp [writtenAt, hw0]⟩
            · exact Or.inr ⟨j + 1, by omega, by simpa [writtenAt] using hw⟩
        · intro H i id hread
          rcases H (i + 1) id (by simpa [readsAt] using hread) with hmem | ⟨j, hj, hw⟩
          · exact Or.inl (List.mem_append_left _ hmem)
          · match j with
            | 0 =>
              have hiw : w = id := by simpa [writtenAt, hw0] using hw
              subst hiw
              exact Or.inl (List.mem_append_right _ (by simp))
            | Nat.succ j =>
              exact Or.inr ⟨j, by omega, by simpa [writtenAt] using hw⟩
    · rw [collectTemporaries, if_neg hr]
      simp only [Option.isSome_none, Bool.false_eq_true, false_iff, not_forall]
      rcases List.all_eq_true.not.mp hr with hx
      push_neg at hx
      obtain ⟨id, hid, hnotseen⟩ := hx
      refine ⟨0, id, ?_⟩
      simp only [not_forall, exists_prop]
      refine ⟨by simpa [readsAt] using hid, ?_⟩
      rintro (hmem | ⟨j, hj, -⟩)
      · exact hnotseen (by simpa using hmem)
      · omega

end Codegen

namespace Tac

theorem lastOcc_isSome_iff (x : Identifier) : ∀ (l : List Identifier) (i : Nat),
    (lastOcc i l x).isSome = true ↔ x ∈ l := by
  intro l
  induction l with
  | nil => intro i; simp [lastOcc]
  | cons t rest ih =>
    intro i
    simp only [lastOcc]
    cases h : lastOcc (i + 1) rest x with
    | some j =>
      have : x ∈ rest := (ih (i + 1)).mp (by simp [h])
      simp [this]
    | none =>
      have : x ∉ rest := fun hm => by simpa [h] using (ih (i + 1)).mpr hm
      by_cases ht : t = x
      · simp [ht]
      · simp only [if_neg ht]
        simp only [Option.isSome_none, Bool.false_eq_true, false_iff]
        intro hm
        rcases List.mem_cons.mp hm with h1 | h1
        · exact ht h1.symm
        · exact this h1
  
theorem lastOcc_spec (x : Identifier) : ∀ (l : List Identifier) (i j : Nat),
    lastOcc i l x = some j → i ≤ j ∧ j - i < l.length ∧ l[j - i]? = some x := by
  intro l
  induction l with
  | nil => intro i j h; simp [lastOcc] at h
  | cons t rest ih =>
    intro i j h
    simp only [lastOcc] at h
    split at h
    · rename_i j' hrec
      have hj : j' = j := by simpa using h
      subst hj
      obtain ⟨h1, h2, h3⟩ := ih (i + 1) j' hrec
      refine ⟨by omega, by simp; omega, ?_⟩
      have hsub : j' - i = (j' - (i + 1)) + 1 := by omega
      rw [hsub, List.getElem?_cons_succ]
      exact h3
    · split at h
      · rename_i ht
        have hj : i = j := by simpa using h
        subst hj
        refine ⟨le_refl _, by simp, ?_⟩
        simp [ht]
      · exact absurd h (by simp)

end Tac

namespace Codegen

open Tac

theorem allocMapAux_find (x : Identifier) : ∀ (l : List Identifier) (i : Nat)
    (m : List (Identifier × Location)),
    (allocMapAux i l m).find? (fun p => p.1 = x) =
      match lastOcc i l x with
      | some j => some (x, .Mem ((j + 1) * 4))
      | none => m.find? (fun p => p.1 = x) := by
  intro l
  induction l with
  | nil => intro i m; simp [allocMapAux, lastOcc]
  | cons t rest ih =>
    intro i m
    simp only [allocMapAux, lastOcc]
    rw [ih (i + 1) ((t, .Mem ((i + 1) * 4)) :: m)]
    cases hrec : lastOcc (i + 1) rest x with
    | some j => rfl
    | none =>
      by_cases ht : t = x
      · subst ht
        simp [List.find?_cons]
      · simp only [if_neg ht]
        rw [List.find?_cons]
        have : (decide (t = x)) = false := by simpa using ht
        rw [this]

theorem get_location_spec (temps : List Identifier) (id : Identifier) :
    (RegisterAllocator.mk (allocMapAux 0 temps [])).get_location id =
      match lastOcc 0 temps id with
      | some j => some (Location.Mem ((j + 1) * 4))
      | none => none := by
  rw [RegisterAllocator.get_location]
  rw [allocMapAux_find id temps 0 []]
  cases h : lastOcc 0 temps id <;> simp

end Codegen

namespace Codegen

open Tac

/-- C1 (amended): `RegisterAllocator::new` rejects (panics on) a TAC list
exactly when some instruction reads an identifier that no earlier instruction
has written; on every accepted list, every read of an identifier is preceded
by an earlier write of it (so each identifier's first write index is strictly
smaller than its first read index). Identifiers may be written more than once
before their first read — the ternary lowering does so. -/
theorem C1_read_before_write_rejected :
    ∀ l : List TacInstr,
      (RegisterAllocator.new l = none ↔
        ∃ i id, id ∈ readsAt l i ∧ ∀ j, j < i → writtenAt l j ≠ some id) ∧
      (∀ r, RegisterAllocator.new l = some r →
        ∀ i id, id ∈ readsAt l i → ∃ j, j < i ∧ writtenAt l j = some id) := by
  intro l
  have hiff := collect_isSome_iff l []
  constructor
  · constructor
    · intro hnone
      cases hc : collectTemporaries l [] with
      | some temps =>
        rw [RegisterAllocator.new, hc] at hnone
        exact absurd hnone (by simp)
      | none =>
        have hnot : ¬(∀ i id, id ∈ readsAt l i →
            id ∈ ([] : List Identifier) ∨ ∃ j, j < i ∧ writtenAt l j = some id) := by
          rw [← hiff]
          simp [hc]
        push_neg at hnot
        obtain ⟨i, id, hread, hno⟩ := hnot
        refine ⟨i, id, hread, fun j hj hw => ?_⟩
        rcases hno with ⟨-, hnoex⟩
        exact hnoex j hj hw
    · rintro ⟨i, id, hread, hno⟩
      cases hc : collectTemporaries l [] with
      | none => rw [RegisterAllocator.new, hc]
      | some temps =>
        exfalso
        have := (hiff.mp (by simp [hc])) i id hread
        rcases this with h0 | ⟨j, hj, hw⟩
        · exact absurd h0 (by simp)
        · exact hno j hj hw
  · intro r hsome i id hread
    cases hc : collectTemporaries l [] with
    | none =>
      rw [RegisterAllocator.new, hc] at hsome
      exact absurd hsome (by simp)
    | some temps =>
      have := (hiff.mp (by simp [hc])) i id hread
      rcases this with h0 | h1
      · exact absurd h0 (by simp)
      · exact h1

/-- Witness for C1 at the accepted list `Copy((0,Dword), 0); Exit((0,Dword))`:
the read at index 1 has an earlier write. -/
theorem C1_read_before_write_rejected_witness :
    ∃ j, j < 1 ∧
      writtenAt [.Copy ⟨0, .Dword⟩ (.Lit 0 .Dword), .Exit (.Var ⟨0, .Dword⟩)] j =
        some ⟨0, .Dword⟩ :=
  (C1_read_before_write_rejected
      [.Copy ⟨0, .Dword⟩ (.Lit 0 .Dword), .Exit (.Var ⟨0, .Dword⟩)]).2
    (⟨[(⟨0, .Dword⟩, .Mem 4)]⟩, 4) (by decide) 1 ⟨0, .Dword⟩ (by decide)

/-- Counterexample to C1 as stated: the lowering of `1 ? 2 : 3` followed by a
read of the result is accepted by `RegisterAllocator::new`, yet the
identifier `(0, Dword)` appears as the written destination twice (indices 1
and 4) before its first read (index 6). -/
theorem C1_counterexample :
    generate_expr_tac (.Ternary (.Int 1) (.Int 2) (.Int 3)) [[]] none none ⟨0, 0⟩ =
      some ((ternaryTac, .Var ⟨0, .Dword⟩), ⟨1, 1⟩) ∧
    ternaryProgram = ternaryTac ++ [.Exit (.Var ⟨0, .Dword⟩)] ∧
    (RegisterAllocator.new ternaryProgram).isSome = true ∧
    writtenAt ternaryProgram 1 = some ⟨0, .Dword⟩ ∧
    writtenAt ternaryProgram 4 = some ⟨0, .Dword⟩ ∧
    (1 : Nat) ≠ 4 ∧
    (⟨0, .Dword⟩ : Identifier) ∉ readsAt ternaryProgram 0 ∧
    (⟨0, .Dword⟩ : Identifier) ∉ readsAt ternaryProgram 1 ∧
    (⟨0, .Dword⟩ : Identifier) ∉ readsAt ternaryProgram 2 ∧
    (⟨0, .Dword⟩ : Identifier) ∉ readsAt ternaryProgram 3 ∧
    (⟨0, .Dword⟩ : Identifier) ∉ readsAt ternaryProgram 4 ∧
    (⟨0, .Dword⟩ : Identifier) ∉ readsAt ternaryProgram 5 ∧
    (⟨0, .Dword⟩ : Identifier) ∈ readsAt ternaryProgram 6 := by
  refine ⟨?_, by decide, by decide, by decide, by decide, by decide, by decide,
    by decide, by decide, by decide, by decide, by decide, by decide⟩
  simp [generate_expr_tac, generate_ternary_tac, chooseFinalTemp, get_expr_size,
    get_bigger_size, getNewTempName, getNewLabelNumber, VarSize.default, ternaryTac]

/-- C4 (amended): on every accepted TAC list the allocator returns a byte
footprint of 4 per write event (counted with multiplicity, not per distinct
identifier); each written identifier is assigned `Mem((j+1)·4)` where `j` is
the index of its last write event; every assigned location is a stack slot
`Mem` of a positive multiple of 4 (never a physical register); and no two
distinct identifiers share a slot. -/
theorem C4_allocator_locations :
    ∀ (l : List TacInstr) (ra : RegisterAllocator) (bytes : Nat),
      RegisterAllocator.new l = some (ra, bytes) →
      bytes = 4 * (writeEvents l).length ∧
      (∀ id, id ∈ writeEvents l → ∃ j, lastOcc 0 (writeEvents l) id = some j ∧
        ra.get_location id = some (.Mem ((j + 1) * 4))) ∧
      (∀ id loc, ra.get_location id = some loc → ∃ k, loc = .Mem (4 * (k + 1))) ∧
      (∀ id1 id2 loc, ra.get_location id1 = some loc → ra.get_location id2 = some loc →
        id1 = id2) := by
  intro l ra bytes h
  rw [RegisterAllocator.new] at h
  cases hc : collectTemporaries l [] with
  | none =>
    rw [hc] at h
    exact absurd h (by simp)
  | some temps =>
    rw [hc] at h
    have htemps : temps = writeEvents l := by
      simpa using collect_some_eq l [] temps hc
    subst htemps
    simp only [Option.some.injEq, Prod.mk.injEq] at h
    obtain ⟨hra, hbytes⟩ := h
    subst hbytes
    refine ⟨rfl, ?_, ?_, ?_⟩
    · intro id hid
      have hsome : (lastOcc 0 (writeEvents l) id).isSome = true :=
        (lastOcc_isSome_iff id (writeEvents l) 0).mpr hid
      rcases hj : lastOcc 0 (writeEvents l) id with _ | j
      · rw [hj] at hsome
        exact absurd hsome (by simp)
      · refine ⟨j, rfl, ?_⟩
        rw [← hra, get_location_spec, hj]
    · intro id loc hloc
      rw [← hra, get_location_spec] at hloc
      rcases hj : lastOcc 0 (writeEvents l) id with _ | j <;> rw [hj] at hloc
      · exact absurd hloc (by simp)
      · refine ⟨j, ?_⟩
        simp only [Option.some.injEq] at hloc
        rw [← hloc]
        congr 1
        omega
    · intro id1 id2 loc h1 h2
      rw [← hra, get_location_spec] at h1 h2
      rcases hj1 : lastOcc 0 (writeEvents l) id1 with _ | j1 <;> rw [hj1] at h1
      · exact absurd h1 (by simp)
      · rcases hj2 : lastOcc 0 (writeEvents l) id2 with _ | j2 <;> rw [hj2] at h2
        · exact absurd h2 (by simp)
        · have hjj : j1 = j2 := by
            simp only [Option.some.injEq] at h1 h2
            rw [← h1] at h2
            simp only [Location.Mem.injEq] at h2
            omega
          subst hjj
          have s1 := lastOcc_spec id1 (writeEvents l) 0 j1 hj1
          have s2 := lastOcc_spec id2 (writeEvents l) 0 j1 hj2
          have e1 := s1.2.2
          have e2 := s2.2.2
          simp only [Nat.sub_zero] at e1 e2
          rw [e1] at e2
          simpa using e2

/-- Witness for C4 at the accepted `ternaryProgram`: the returned footprint
is 4 bytes per write event (8 for the two writes). -/
theorem C4_allocator_locations_witness :
    (8 : Nat) = 4 * (writeEvents ternaryProgram).length :=
  (C4_allocator_locations ternaryProgram
    ⟨[(⟨0, .Dword⟩, .Mem 8), (⟨0, .Dword⟩, .Mem 4)]⟩ 8 (by decide)).1

/-- Counterexample to C4 as stated: `ternaryProgram` has exactly one distinct
written identifier, `(0, Dword)`, written by events 0 and 1, yet the
allocator returns footprint 8 (not 4·1) and assigns the identifier
`Mem(8)` (the slot of its second write event), not `Mem((0+1)·4) = Mem(4)`. -/
theorem C4_counterexample :
    generate_expr_tac (.Ternary (.Int 1) (.Int 2) (.Int 3)) [[]] none none ⟨0, 0⟩ =
      some ((ternaryTac, .Var ⟨0, .Dword⟩), ⟨1, 1⟩) ∧
    writeEvents ternaryProgram = [⟨0, .Dword⟩, ⟨0, .Dword⟩] ∧
    RegisterAllocator.new ternaryProgram =
      some (⟨[(⟨0, .Dword⟩, .Mem 8), (⟨0, .Dword⟩, .Mem 4)]⟩, 8) ∧
    (RegisterAllocator.mk [(⟨0, .Dword⟩, .Mem 8), (⟨0, .Dword⟩, .Mem 4)]).get_location
      ⟨0, .Dword⟩ = some (.Mem 8) ∧
    (8 : Nat) ≠ 4 * 1 ∧
    Location.Mem 8 ≠ Location.Mem ((0 + 1) * 4) := by
  refine ⟨?_, by decide, by decide, by decide, by decide, by decide⟩
  simp [generate_expr_tac, generate_ternary_tac, chooseFinalTemp, get_expr_size,
    get_bigger_size, getNewTempName, getNewLabelNumber, VarSize.default, ternaryTac]

end Codegen

namespace Codegen

open Tac

/-- C7: the x86 expansion of `Exit(v)` is exactly: load `v` into RDI
(`MovImm` for a literal, `Mov` from the allocated stack slot for a
variable), then `MovImm RAX, 60`, then `Syscall` — the exit syscall with RDI
holding the returned value. -/
theorem C7_exit_expansion :
    (∀ (n : I64) (sz : VarSize) (ra : RegisterAllocator),
      gen_x86_for_tac (.Exit (.Lit n sz)) ra =
        some [.MovImm (.Reg .Rdi) n, .MovImm (.Reg .Rax) 60, .Syscall]) ∧
    (∀ (id : Identifier) (loc : Location) (ra : RegisterAllocator),
      ra.get_location id = some loc →
      gen_x86_for_tac (.Exit (.Var id)) ra =
        some [.Mov (.Reg .Rdi) loc, .MovImm (.Reg .Rax) 60, .Syscall]) ∧
    (∀ (v : TacVal) (ra : RegisterAllocator),
      gen_x86_for_tac (.Exit v) ra =
        (gen_load_val_code v .Rdi ra).map (· ++ [.MovImm (.Reg .Rax) 60, .Syscall])) := by
  refine ⟨fun n sz ra => ?_, fun id loc ra hloc => ?_, fun v ra => ?_⟩
  · simp [gen_x86_for_tac, gen_load_val_code]
  · simp [gen_x86_for_tac, gen_load_val_code, hloc]
  · rw [gen_x86_for_tac]
    cases h : gen_load_val_code v .Rdi ra <;> simp

/-- Witness for C7: `Exit` of the variable `(0, Dword)` under an allocator
placing it at `Mem 4`. -/
theorem C7_exit_expansion_witness :
    gen_x86_for_tac (.Exit (.Var ⟨0, .Dword⟩)) ⟨[(⟨0, .Dword⟩, .Mem 4)]⟩ =
      some [.Mov (.Reg .Rdi) (.Mem 4), .MovImm (.Reg .Rax) 60, .Syscall] :=
  C7_exit_expansion.2.1 ⟨0, .Dword⟩ (.Mem 4) ⟨[(⟨0, .Dword⟩, .Mem 4)]⟩ (by decide)

end Codegen

namespace ArrInit

open Tac

/-- C8: the array-initializer lowering, element for element, matches the
spec-side description `specArrInitLowering`: a nested initializer copies the
pointer into a fresh `Quad` pointer and recurses over it; every other
element is evaluated and followed by `DerefStore(p, val)`; each element's
block ends with exactly one `BinOp(p, Var(p), Lit(S, Quad), Plus)` advancing
the pointer by the element size. -/
theorem C8_arr_init_blocks :
    ∀ (genExpr : GenExprFn) (arr_type : VarType) (exprs : List AExpr)
      (p : Identifier) (code_env : CodeEnv) (st : St),
      gen_arr_init_expr_tac genExpr arr_type (.ArrInitExpr exprs) p code_env st =
        specArrInitLowering genExpr arr_type exprs p code_env st := by
  intro genExpr arr_type exprs p code_env st
  rw [gen_arr_init_expr_tac]
  induction exprs generalizing st with
  | nil => rfl
  | cons e rest ih =>
    cases e with
    | ArrInitExpr elems =>
      cases arr_type with
      | Arr inner n =>
        rw [arrInitLoop, specArrInitLowering, specElementBlock]
        simp only []
        cases hrec : gen_arr_init_expr_tac genExpr inner (.ArrInitExpr elems)
            (getNewTempName .Quad st).1 code_env (getNewTempName .Quad st).2 with
        | none => rfl
        | some out =>
          obtain ⟨instrs, st2⟩ := out
          simp only [ih]
      | Fund s => rfl
      | Ptr inner => rfl
    | Scalar s =>
      rw [arrInitLoop, specArrInitLowering, specElementBlock]
      cases hgen : genExpr s code_env st with
      | none => rfl
      | some out =>
        obtain ⟨⟨expr_instrs, tac_val⟩, st1⟩ := out
        simp only [ih]

end ArrInit

namespace Parser

open Tac

/-- C9: the parser accepts only zero-parameter function definitions — a
parse of a function succeeds only when the token after the function name is
`(` immediately followed by `)`, and any other token in either position is a
fatal parse failure. -/
theorem C9_zero_param_functions :
    (∀ (fuel : Nat) (ts : List Token) (out : Function × List Token),
      generate_function_ast fuel ts = some out →
      ∃ t name rest, ts = .Type t :: .Identifier name :: .OpenParen :: .CloseParen :: rest) ∧
    (∀ (fuel : Nat) (t : CType) (name : String) (x : Token) (rest : List Token),
      x ≠ .OpenParen →
      generate_function_ast fuel (.Type t :: .Identifier name :: x :: rest) = none) ∧
    (∀ (fuel : Nat) (t : CType) (name : String) (y : Token) (rest : List Token),
      y ≠ .CloseParen →
      generate_function_ast fuel (.Type t :: .Identifier name :: .OpenParen :: y :: rest) =
        none) := by
  refine ⟨fun fuel ts out h => ?_, fun fuel t name x rest hx => ?_,
    fun fuel t name y rest hy => ?_⟩
  · rw [generate_function_ast.eq_def] at h
    split at h
    · exact absurd h (by simp)
    · split at h
      · rename_i t name rest
        exact ⟨t, name, rest, rfl⟩
      · exact absurd h (by simp)
  · match fuel with
    | 0 => rfl
    | fuel + 1 => cases x <;> first | exact absurd rfl hx | rfl
  · match fuel with
    | 0 => rfl
    | fuel + 1 => cases y <;> first | exact absurd rfl hy | rfl

/-- Witness for C9 at the token stream of `int main() {}`. -/
theorem C9_zero_param_functions_witness :
    ∃ t name rest,
      ([.Type .IntT, .Identifier "main", .OpenParen, .CloseParen,
        .OpenBrace, .CloseBrace] : List Token) =
        .Type t :: .Identifier name :: .OpenParen :: .CloseParen :: rest :=
  C9_zero_param_functions.1 3
    [.Type .IntT, .Identifier "main", .OpenParen, .CloseParen, .OpenBrace, .CloseBrace]
    (⟨"main", []⟩, []) (by rfl)

/-- C10: the parser desugars compound assignment at the lowest precedence
level: `x += …` parses to `Assign(x, BinOp(Plus, Var(x), e))` and `x -= …`
to `Assign(x, BinOp(Minus, Var(x), e))`, where `e` is the parse of the
right-hand side at the lowest precedence level. -/
theorem C10_compound_assignment_desugar :
    (∀ (fuel : Nat) (val : String) (rest : List Token) (e : Expr) (rest' : List Token),
      generate_expr_ast fuel rest BinOpPrecedenceLevel.lowest_level = some (e, rest') →
      generate_expr_ast (fuel + 1) (.Identifier val :: .Op .PlusEquals :: rest)
          BinOpPrecedenceLevel.lowest_level =
        some (.Assign val (.BinOp .Plus (.Var val) e), rest')) ∧
    (∀ (fuel : Nat) (val : String) (rest : List Token) (e : Expr) (rest' : List Token),
      generate_expr_ast fuel rest BinOpPrecedenceLevel.lowest_level = some (e, rest') →
      generate_expr_ast (fuel + 1) (.Identifier val :: .Op .MinusEquals :: rest)
          BinOpPrecedenceLevel.lowest_level =
        some (.Assign val (.BinOp .Minus (.Var val) e), rest')) := by
  constructor <;>
  · intro fuel val rest e rest' h
    rw [generate_expr_ast]
    simp [h]

/-- Witness for C10 at `x += 1 ; …` and `x -= 1 ; …`. -/
theorem C10_compound_assignment_desugar_witness :
    generate_expr_ast 21 [.Identifier "x", .Op .PlusEquals, .IntLit "1", .Semicolon]
        BinOpPrecedenceLevel.lowest_level =
      some (.Assign "x" (.BinOp .Plus (.Var "x") (.Int 1)), [.Semicolon]) ∧
    generate_expr_ast 21 [.Identifier "x", .Op .MinusEquals, .IntLit "1", .Semicolon]
        BinOpPrecedenceLevel.lowest_level =
      some (.Assign "x" (.BinOp .Minus (.Var "x") (.Int 1)), [.Semicolon]) :=
  ⟨C10_compound_assignment_desugar.1 20 "x" [.IntLit "1", .Semicolon] (.Int 1)
      [.Semicolon] (by rfl),
   C10_compound_assignment_desugar.2 20 "x" [.IntLit "1", .Semicolon] (.Int 1)
      [.Semicolon] (by rfl)⟩

end Parser
